import Mathlib

/-!
Verification development for the Strands event-stream parser core
(`src/utils/strands_stream/parser.py`, `events.py`, `renderers/base.py`).

The Python values flowing through the parser are JSON-like: `None`, bools,
ints, strings, lists and string-keyed dicts.  They are embedded as the
mutually inductive type `Value` below (floats never appear in the parsed
fields the claims touch).  Python's exception behaviour is modelled
explicitly: dictionary/`in`/subscript operations on values of the wrong
shape, and hash-based container operations on unhashable keys, return a
`PyError` instead of a value, and the parser is written in an
error-plus-state monad `ParseM` so that a raised error aborts the call while
keeping the state mutations made before the raise, exactly as a Python
exception would.
-/

namespace Strands

mutual
inductive Value where
  | null
  | bool (b : Bool)
  | int (n : Int)
  | str (s : String)
  | list (xs : ValueList)
  | obj (kvs : ObjList)
deriving DecidableEq, Repr

inductive ValueList where
  | nil
  | cons (v : Value) (t : ValueList)
deriving DecidableEq, Repr

inductive ObjList where
  | nil
  | cons (k : String) (v : Value) (t : ObjList)
deriving DecidableEq, Repr
end

/-- Python truthiness of a JSON-like value (`if v:`). -/
def Value.truthy : Value → Bool
  | .null => false
  | .bool b => b
  | .int n => !(n == 0)
  | .str s => !(s == "")
  | .list .nil => false
  | .list (.cons _ _) => true
  | .obj .nil => false
  | .obj (.cons _ _ _) => true

/-- Whether the value is hashable in Python (lists and dicts are not). -/
def Value.hashable : Value → Bool
  | .list _ => false
  | .obj _ => false
  | _ => true

def ObjList.findV : ObjList → String → Option Value
  | .nil, _ => none
  | .cons k v t, key => if k == key then some v else t.findV key

/-- Python `d.get(key, dflt)` on a dict with string keys. -/
def ObjList.getD (kvs : ObjList) (key : String) (dflt : Value) : Value :=
  match kvs.findV key with
  | some v => v
  | none => dflt

def ObjList.hasKey (kvs : ObjList) (key : String) : Bool :=
  match kvs.findV key with
  | some _ => true
  | none => false

def ObjList.length : ObjList → Nat
  | .nil => 0
  | .cons _ _ t => t.length + 1

def ValueList.length : ValueList → Nat
  | .nil => 0
  | .cons _ t => t.length + 1

def ValueList.anyV (p : Value → Bool) : ValueList → Bool
  | .nil => false
  | .cons v t => p v || ValueList.anyV p t

def ValueList.toList : ValueList → List Value
  | .nil => []
  | .cons v t => v :: t.toList

mutual
/-- Python `==` on JSON-like values: numeric cross-equality between bools and
ints, elementwise list equality, and order-insensitive dict equality (same
size and every key of the left dict mapped to an equal value in the right;
with duplicate-free keys, as in any real Python dict, this is symmetric). -/
def Value.pyEq : Value → Value → Bool
  | .null, b => match b with | .null => true | _ => false
  | .bool x, b =>
    match b with
    | .bool y => x == y
    | .int m => (if x then (1 : Int) else 0) == m
    | _ => false
  | .int m, b =>
    match b with
    | .int k => m == k
    | .bool y => m == (if y then (1 : Int) else 0)
    | _ => false
  | .str s, b => match b with | .str t => s == t | _ => false
  | .list xs, b => match b with | .list ys => ValueList.pyEqL xs ys | _ => false
  | .obj xs, b =>
    match b with
    | .obj ys => xs.length == ys.length && ObjList.pyEqSub xs ys
    | _ => false

def ValueList.pyEqL : ValueList → ValueList → Bool
  | .nil, ys => match ys with | .nil => true | _ => false
  | .cons x xs, ys =>
    match ys with
    | .cons y ys' => x.pyEq y && ValueList.pyEqL xs ys'
    | .nil => false

def ObjList.pyEqSub : ObjList → ObjList → Bool
  | .nil, _ => true
  | .cons k v t, ys =>
    (match ys.findV k with
     | some w => v.pyEq w
     | none => false) && ObjList.pyEqSub t ys
end

/-- Convenience constructor: a Python list literal. -/
def vlist (xs : List Value) : Value :=
  Value.list (xs.foldr ValueList.cons ValueList.nil)

/-- Convenience constructor: a Python dict literal (string keys). -/
def vobj (xs : List (String × Value)) : Value :=
  Value.obj (xs.foldr (fun kv t => ObjList.cons kv.1 kv.2 t) ObjList.nil)

/-- The Python exceptions the parser can actually raise on malformed input. -/
inductive PyError where
  | typeError
  | attributeError
  | keyError
deriving DecidableEq, Repr

def charsStartWith : List Char → List Char → Bool
  | [], _ => true
  | _ :: _, [] => false
  | a :: as, b :: bs => a == b && charsStartWith as bs

def charsContain (pat : List Char) : List Char → Bool
  | [] => pat.isEmpty
  | c :: rest => charsStartWith pat (c :: rest) || charsContain pat rest

/-- Python substring containment `pat in s`. -/
def strContainsSub (s pat : String) : Bool :=
  charsContain pat.data s.data

/-- Python `key in container` for a string literal key: key lookup on a dict,
substring test on a string, element equality on a list, `TypeError` on the
non-iterable scalars. -/
def pyContains (container : Value) (key : String) : Except PyError Bool :=
  match container with
  | .obj kvs => .ok (kvs.hasKey key)
  | .str s => .ok (strContainsSub s key)
  | .list xs => .ok (xs.anyV fun v => v.pyEq (.str key))
  | _ => .error .typeError

/-- Python `container[key]` for a string literal key: value on a dict holding
the key, `KeyError` on a dict without it, `TypeError` on everything else
(string and list subscripts demand integers). -/
def pyIndexStr (container : Value) (key : String) : Except PyError Value :=
  match container with
  | .obj kvs =>
    match kvs.findV key with
    | some v => .ok v
    | none => .error .keyError
  | _ => .error .typeError

mutual
/-- Python `repr()` of a JSON-like value (string quoting simplified to a bare
single-quote wrap; none of the verified properties reads these renderings). -/
def Value.pyRepr : Value → String
  | .null => "None"
  | .bool b => if b then "True" else "False"
  | .int n => toString n
  | .str s => "\x27" ++ s ++ "\x27"
  | .list xs => "[" ++ ValueList.reprJoin xs ++ "]"
  | .obj kvs => "\x7b" ++ ObjList.reprJoin kvs ++ "\x7d"

def ValueList.reprJoin : ValueList → String
  | .nil => ""
  | .cons v .nil => v.pyRepr
  | .cons v t => v.pyRepr ++ ", " ++ ValueList.reprJoin t

def ObjList.reprJoin : ObjList → String
  | .nil => ""
  | .cons k v .nil => "\x27" ++ k ++ "\x27: " ++ v.pyRepr
  | .cons k v t => "\x27" ++ k ++ "\x27: " ++ v.pyRepr ++ ", " ++ ObjList.reprJoin t
end

/-- Python `str()`: identity on strings, `repr` rendering otherwise. -/
def Value.pyStr : Value → String
  | .str s => s
  | v => v.pyRepr

def jsonEscape (s : String) : String :=
  s.data.foldr
    (fun c acc =>
      if c == '\\' then "\\\\" ++ acc
      else if c == '"' then "\\\"" ++ acc
      else if c == '\n' then "\\n" ++ acc
      else if c == '\t' then "\\t" ++ acc
      else if c == '\r' then "\\r" ++ acc
      else String.mk [c] ++ acc)
    ""

def jsonIndent (level : Nat) : String :=
  String.mk (List.replicate (2 * level) ' ')

mutual
/-- Embedding of `json.dumps(v, indent=2, ensure_ascii=False)` at a given
nesting level (the parser uses it only as a fallback rendering of a tool
result; no verified property reads the rendered text). -/
def jsonDumpsAt (level : Nat) : Value → String
  | .null => "null"
  | .bool b => if b then "true" else "false"
  | .int n => toString n
  | .str s => "\"" ++ jsonEscape s ++ "\""
  | .list .nil => "[]"
  | .list (.cons v t) =>
    "[\n" ++ jsonItems (level + 1) (ValueList.cons v t) ++ "\n" ++ jsonIndent level ++ "]"
  | .obj .nil => "\x7b\x7d"
  | .obj (.cons k v t) =>
    "\x7b\n" ++ jsonPairs (level + 1) (ObjList.cons k v t) ++ "\n" ++ jsonIndent level ++ "\x7d"

def jsonItems (level : Nat) : ValueList → String
  | .nil => ""
  | .cons v .nil => jsonIndent level ++ jsonDumpsAt level v
  | .cons v t => jsonIndent level ++ jsonDumpsAt level v ++ ",\n" ++ jsonItems level t

def jsonPairs (level : Nat) : ObjList → String
  | .nil => ""
  | .cons k v .nil => jsonIndent level ++ "\"" ++ jsonEscape k ++ "\": " ++ jsonDumpsAt level v
  | .cons k v t =>
    jsonIndent level ++ "\"" ++ jsonEscape k ++ "\": " ++ jsonDumpsAt level v ++ ",\n" ++
      jsonPairs level t
end

def jsonDumps (v : Value) : String := jsonDumpsAt 0 v

/-- Typed events of `src/utils/strands_stream/events.py`.  Fields whose
Python annotations are not enforced at runtime are embedded as `Value`;
Python `None` is `Value.null`. -/
inductive ParsedEvent where
  | text (data : Value) (source : Value)
  | currentToolUse (tool_name : Value) (tool_id : Value) (tool_input : Value) (source : Value)
  | toolResult (data : Value) (tool_name : Value) (tool_id : Value) (metadata : Value)
      (source : Value)
  | toolStream (tool_use : Value) (data : Value)
  | reasoning (data : Value) (metadata : Value)
  | lifecycle (lifecycle_type : String) (message : Value) (force_stop_reason : Value)
      (result : Value)
  | nodeStart (node_id : Value) (node_type : Value)
  | nodeStream (node_id : Value) (inner_event : Value)
  | nodeStop (node_id : Value) (node_result : Value)
  | handoff (from_node_ids : Value) (to_node_ids : Value) (message : Value)
  | maResult (result : Value)
deriving DecidableEq, Repr

/-- Key of `last_tool_input`: `(source, tool_use_id) if source else tool_use_id`
(parser.py line 130). -/
inductive ToolKey where
  | plain (id : Value)
  | sub (source : Value) (id : Value)
deriving DecidableEq, Repr

def ToolKey.pyEqK : ToolKey → ToolKey → Bool
  | .plain a, .plain b => a.pyEq b
  | .sub s a, .sub t b => s.pyEq t && a.pyEq b
  | _, _ => false

def ToolKey.hashable : ToolKey → Bool
  | .plain a => a.hashable
  | .sub s a => s.hashable && a.hashable

/-- Session state of `StrandsEventParser.__init__` (parser.py lines 25-32).
Python sets and dicts are embedded as insertion-ordered lists; membership and
key lookup go through `Value.pyEq`, as Python's hash containers do. -/
structure ParserState where
  displayed_tool_calls : List Value
  processed_event_ids : List Value
  processed_data_events : List Value
  processed_subagent_data_events : List Value
  tool_use_mapping : List (Value × Value)
  last_tool_input : List (ToolKey × Value)
  active_subagent_tools : List Value
deriving DecidableEq, Repr

def initialState : ParserState :=
  { displayed_tool_calls := []
    processed_event_ids := []
    processed_data_events := []
    processed_subagent_data_events := []
    tool_use_mapping := []
    last_tool_input := []
    active_subagent_tools := [] }

/-- `StrandsEventParser.reset` (parser.py lines 387-395): clears every field. -/
def reset (_ : ParserState) : ParserState := initialState

/-- Membership of a value in an embedded Python set. -/
def pmemV (s : List Value) (v : Value) : Bool :=
  s.any fun x => x.pyEq v

/-- Python `set.add`: `TypeError` on an unhashable element. -/
def setAddE (s : List Value) (v : Value) : Except PyError (List Value) :=
  if v.hashable then .ok (if pmemV s v then s else s ++ [v]) else .error .typeError

/-- Python `x in set`: `TypeError` on an unhashable probe. -/
def setContainsE (s : List Value) (v : Value) : Except PyError Bool :=
  if v.hashable then .ok (pmemV s v) else .error .typeError

/-- Python `set.discard` once the probe is known hashable. -/
def setDiscard (s : List Value) (v : Value) : List Value :=
  s.filter fun x => !(x.pyEq v)

def vdictHasKey (m : List (Value × Value)) (k : Value) : Bool :=
  m.any fun kv => kv.1.pyEq k

def vdictSet (m : List (Value × Value)) (k : Value) (v : Value) : List (Value × Value) :=
  if vdictHasKey m k then m.map fun kv => if kv.1.pyEq k then (kv.1, v) else kv
  else m ++ [(k, v)]

/-- Python `d[k] = v` on a value-keyed dict: `TypeError` on an unhashable key. -/
def vdictSetE (m : List (Value × Value)) (k : Value) (v : Value) :
    Except PyError (List (Value × Value)) :=
  if k.hashable then .ok (vdictSet m k v) else .error .typeError

/-- Python `d.get(k, dflt)` on a value-keyed dict: `TypeError` on an
unhashable key. -/
def vdictGetE (m : List (Value × Value)) (k : Value) (dflt : Value) : Except PyError Value :=
  if k.hashable then
    .ok (match m.find? fun kv => kv.1.pyEq k with
         | some kv => kv.2
         | none => dflt)
  else .error .typeError

def kdictHasKey (m : List (ToolKey × Value)) (k : ToolKey) : Bool :=
  m.any fun kv => kv.1.pyEqK k

def kdictSet (m : List (ToolKey × Value)) (k : ToolKey) (v : Value) : List (ToolKey × Value) :=
  if kdictHasKey m k then m.map fun kv => if kv.1.pyEqK k then (kv.1, v) else kv
  else m ++ [(k, v)]

/-- Python `k in d` followed by `d[k]` on `last_tool_input`: `TypeError` on an
unhashable key, otherwise the stored value when the key is present. -/
def kdictFindE (m : List (ToolKey × Value)) (k : ToolKey) : Except PyError (Option Value) :=
  if k.hashable then
    .ok ((m.find? fun kv => kv.1.pyEqK k).map fun kv => kv.2)
  else .error .typeError

/-- Result of one parser call: the returned value or the raised error, in
both cases together with the session state as the call left it (a Python
exception does not roll back `self`). -/
inductive PResult (α : Type) where
  | ok (a : α) (s : ParserState)
  | err (e : PyError) (s : ParserState)
deriving Repr, DecidableEq

/-- The parser's effect monad: state plus Python exceptions. -/
def ParseM (α : Type) : Type := ParserState → PResult α

def ParseM.pure (a : α) : ParseM α := fun s => .ok a s

def ParseM.bind (x : ParseM α) (f : α → ParseM β) : ParseM β := fun s =>
  match x s with
  | .ok a s' => f a s'
  | .err e s' => .err e s'

instance : Monad ParseM where
  pure := ParseM.pure
  bind := ParseM.bind

def ParseM.get : ParseM ParserState := fun s => .ok s s

def ParseM.set (s' : ParserState) : ParseM Unit := fun _ => .ok () s'

def ParseM.throw (e : PyError) : ParseM α := fun s => .err e s

def ParseM.liftE : Except PyError α → ParseM α
  | .ok a => ParseM.pure a
  | .error e => ParseM.throw e

/-- Scan of a message content list for the first dict holding a `toolUse`
key (parser.py lines 50-53). -/
def findToolUseInContent : ValueList → Value
  | .nil => .null
  | .cons c t =>
    match c with
    | .obj ckvs =>
      match ckvs.findV "toolUse" with
      | some tu => tu
      | none => findToolUseInContent t
    | _ => findToolUseInContent t

/-- `StrandsEventParser.extract_tool_use_from_event` (parser.py lines 34-55).
The argument can be any value because the sub-agent relay path feeds it the
raw inner event; Python's `in` and subscript on a non-dict are where the
embedded errors come from. -/
def extract_tool_use_from_event (event : Value) : Except PyError (Option ObjList) := do
  let tool_use : Value ←
    if ← pyContains event "toolUse" then
      pyIndexStr event "toolUse"
    else if ← pyContains event "current_tool_use" then
      pyIndexStr event "current_tool_use"
    else if ← pyContains event "message" then do
      let message ← pyIndexStr event "message"
      match message with
      | .obj mkvs =>
        match mkvs.getD "content" (vlist []) with
        | .list cl => Except.ok (findToolUseInContent cl)
        | _ => Except.ok .null
      | _ => Except.ok .null
    else Except.ok .null
  match tool_use with
  | .obj kvs => Except.ok (some kvs)
  | _ => Except.ok none

/-- Scan of a message content list for the first dict whose `toolResult`
value is itself a dict (parser.py lines 70-76). -/
def findToolResultInContent : ValueList → Option ObjList
  | .nil => none
  | .cons c t =>
    match c with
    | .obj ckvs =>
      if ckvs.hasKey "toolResult" then
        match ckvs.getD "toolResult" (vobj []) with
        | .obj tr => some tr
        | _ => findToolResultInContent t
      else findToolResultInContent t
    | _ => findToolResultInContent t

/-- `StrandsEventParser.extract_tool_result_from_event` (parser.py
lines 57-76). -/
def extract_tool_result_from_event (event : Value) : Except PyError (Option ObjList) := do
  if !(← pyContains event "message") then
    Except.ok none
  else do
    let message ← pyIndexStr event "message"
    match message with
    | .obj mkvs =>
      match mkvs.getD "content" (vlist []) with
      | .list cl => Except.ok (findToolResultInContent cl)
      | _ => Except.ok none
    | _ => Except.ok none

/-- `StrandsEventParser.extract_result_content` (parser.py lines 78-100). -/
def extract_result_content (tool_result : Value) : Value :=
  match tool_result with
  | .obj kvs =>
    if kvs.hasKey "content" then
      match kvs.getD "content" Value.null with
      | .list (.cons first_item _) =>
        (match first_item with
         | .obj fkvs =>
           match fkvs.findV "text" with
           | some t => t
           | none => .str first_item.pyStr
         | _ => .str first_item.pyStr)
      | .list .nil => .str (Value.pyStr (vlist []))
      | .str s => .str s
      | other => .str other.pyStr
    else if kvs.hasKey "text" then
      kvs.getD "text" Value.null
    else
      .str (jsonDumps tool_result)
  | _ => .str tool_result.pyStr

/-- Phase 1 of `_emit_tool_use_event` (parser.py lines 120-122): record the
id-to-name mapping when both are truthy. -/
def recordToolMapping (tool_use_id tool_name : Value) : ParseM Unit := do
  if tool_use_id.truthy && tool_name.truthy then do
    let st ← ParseM.get
    let m ← ParseM.liftE (vdictSetE st.tool_use_mapping tool_use_id tool_name)
    ParseM.set { st with tool_use_mapping := m }
  else Pure.pure ()

/-- Phase 2 of `_emit_tool_use_event` (parser.py line 125): a truthy id not
yet in `displayed_tool_calls` means a new call. -/
def checkIsNew (tool_use_id : Value) : ParseM Bool := do
  if tool_use_id.truthy then do
    let st ← ParseM.get
    let mem ← ParseM.liftE (setContainsE st.displayed_tool_calls tool_use_id)
    Pure.pure (!mem)
  else Pure.pure false

/-- Phase 3 of `_emit_tool_use_event` (parser.py lines 127-146): compare the
accumulated input with the stored snapshot under the `(source, id)` or plain
id key, storing the new snapshot on change; with no id, always report a
change. -/
def checkInputChanged (tool_use_id source tool_input : Value) : ParseM Bool := do
  if tool_use_id.truthy then do
    let tool_key := if source.truthy then ToolKey.sub source tool_use_id
                    else ToolKey.plain tool_use_id
    let st ← ParseM.get
    match ← ParseM.liftE (kdictFindE st.last_tool_input tool_key) with
    | none => do
      ParseM.set { st with last_tool_input := kdictSet st.last_tool_input tool_key tool_input }
      Pure.pure true
    | some last_input =>
      if !(tool_input.pyEq last_input) then do
        ParseM.set
          { st with last_tool_input := kdictSet st.last_tool_input tool_key tool_input }
        Pure.pure true
      else Pure.pure false
  else Pure.pure true

/-- Phase 4 of `_emit_tool_use_event` (parser.py lines 148-168): one
announcement event for a new call (after recording it), one update event on
an input change, nothing otherwise; an empty accumulated input is surfaced
as `None`. -/
def emitDecision (is_new input_changed : Bool) (tool_name tool_use_id tool_input source : Value) :
    ParseM (List ParsedEvent) := do
  if is_new then do
    let st ← ParseM.get
    let d ← ParseM.liftE (setAddE st.displayed_tool_calls tool_use_id)
    ParseM.set { st with displayed_tool_calls := d }
    Pure.pure [ParsedEvent.currentToolUse tool_name tool_use_id
      (if tool_input.truthy then tool_input else Value.null) source]
  else if input_changed then
    Pure.pure [ParsedEvent.currentToolUse tool_name tool_use_id
      (if tool_input.truthy then tool_input else Value.null) source]
  else Pure.pure []

/-- Phases 2-4 of `_emit_tool_use_event` in sequence. -/
def emitTailPhases (tool_use_id tool_name tool_input source : Value) :
    ParseM (List ParsedEvent) := do
  let is_new_tool_call ← checkIsNew tool_use_id
  let input_changed ← checkInputChanged tool_use_id source tool_input
  emitDecision is_new_tool_call input_changed tool_name tool_use_id tool_input source

/-- `StrandsEventParser._emit_tool_use_event` (parser.py lines 102-168):
the shared tool-use emission rule as the sequence of its four phases.
`source` is the sub-agent skill name, or `Value.null` for the main agent.
Returns the events to append. -/
def emit_tool_use_event (tool_use : ObjList) (source : Value) : ParseM (List ParsedEvent) := do
  let tool_use_id := tool_use.getD "toolUseId" (Value.str "")
  let tool_name := tool_use.getD "name" (Value.str "unknown")
  let tool_input : Value :=
    match tool_use.getD "input" Value.null with
    | .obj kv => Value.obj kv
    | _ => Value.obj .nil
  recordToolMapping tool_use_id tool_name
  emitTailPhases tool_use_id tool_name tool_input source

/-- Sub-agent text rule (parser.py lines 349-360): a truthy `data` field of
the relayed inner event becomes one `TextEvent` stamped with the skill name;
Python `in`/subscript semantics can raise on a non-dict inner event. -/
def subDataPhase (event skill_name : Value) : ParseM (List ParsedEvent) := do
  if ← ParseM.liftE (pyContains event "data") then do
    let chunk_text ← ParseM.liftE (pyIndexStr event "data")
    Pure.pure (if chunk_text.truthy then [ParsedEvent.text chunk_text skill_name] else [])
  else Pure.pure []

/-- Sub-agent tool-use rule (parser.py lines 362-365). -/
def subToolUsePhase (event skill_name : Value) : ParseM (List ParsedEvent) := do
  match ← ParseM.liftE (extract_tool_use_from_event event) with
  | some tool_use =>
    if (Value.obj tool_use).truthy then emit_tool_use_event tool_use skill_name
    else Pure.pure []
  | none => Pure.pure []

/-- Sub-agent tool-result rule (parser.py lines 367-383): name recovery via
`tool_use_mapping`, emission stamped with the skill name, no
active-sub-agent bookkeeping on this path. -/
def subToolResultPhase (event skill_name : Value) : ParseM (List ParsedEvent) := do
  match ← ParseM.liftE (extract_tool_result_from_event event) with
  | some tool_result =>
    if (Value.obj tool_result).truthy then do
      let tool_use_id := tool_result.getD "toolUseId" (Value.str "")
      let st ← ParseM.get
      let tool_name ← ParseM.liftE (vdictGetE st.tool_use_mapping tool_use_id
        (Value.str "unknown"))
      let result_content := extract_result_content (Value.obj tool_result)
      let status := tool_result.getD "status" (Value.str "")
      Pure.pure [ParsedEvent.toolResult result_content tool_name tool_use_id
        (if status.truthy then vobj [("status", status)] else Value.null) skill_name]
    else Pure.pure []
  | none => Pure.pure []

/-- `StrandsEventParser._parse_subagent_event` (parser.py lines 345-385):
recursive parse of a relayed sub-agent event with the skill name bound as
`source`, as the sequence of its three rules. -/
def parse_subagent_event (event : Value) (skill_name : Value) : ParseM (List ParsedEvent) := do
  let dataEvs ← subDataPhase event skill_name
  let tuEvs ← subToolUsePhase event skill_name
  let trEvs ← subToolResultPhase event skill_name
  Pure.pure (dataEvs ++ tuEvs ++ trEvs)

/-- Multi-agent type dispatch at the top of `parse` (parser.py lines
177-228): when the `type` tag is truthy and names one of the five
orchestration events, `parse` returns just that typed event. -/
def orchestrationEvents (kvs : ObjList) : Option (List ParsedEvent) :=
  let event_type := kvs.getD "type" Value.null
  if event_type.truthy then
    if event_type.pyEq (Value.str "multiagent_node_start") then
      some [ParsedEvent.nodeStart (kvs.getD "node_id" (Value.str "unknown"))
        (kvs.getD "node_type" (Value.str "unknown"))]
    else if event_type.pyEq (Value.str "multiagent_node_stream") then
      some [ParsedEvent.nodeStream (kvs.getD "node_id" (Value.str "unknown"))
        (kvs.getD "event" (vobj []))]
    else if event_type.pyEq (Value.str "multiagent_node_stop") then
      some [ParsedEvent.nodeStop (kvs.getD "node_id" (Value.str "unknown"))
        (kvs.getD "node_result" Value.null)]
    else if event_type.pyEq (Value.str "multiagent_handoff") then
      some [ParsedEvent.handoff (kvs.getD "from_node_ids" (vlist []))
        (kvs.getD "to_node_ids" (vlist [])) (kvs.getD "message" Value.null)]
    else if event_type.pyEq (Value.str "multiagent_result") then
      some [ParsedEvent.maResult (kvs.getD "result" Value.null)]
    else none
  else none

/-- Lifecycle flag handling of `parse` (parser.py lines 230-261): one
`LifecycleEvent` per truthy marker, in source order. -/
def lifecycleEvents (kvs : ObjList) : List ParsedEvent :=
  (if (kvs.getD "init_event_loop" (Value.bool false)).truthy then
    [ParsedEvent.lifecycle "init" (kvs.getD "message" Value.null) Value.null Value.null]
   else []) ++
  (if (kvs.getD "start_event_loop" (Value.bool false)).truthy then
    [ParsedEvent.lifecycle "start" (kvs.getD "message" Value.null) Value.null Value.null]
   else []) ++
  (if (kvs.getD "complete" (Value.bool false)).truthy then
    [ParsedEvent.lifecycle "complete" Value.null Value.null (kvs.getD "result" Value.null)]
   else []) ++
  (if (kvs.getD "force_stop" (Value.bool false)).truthy then
    [ParsedEvent.lifecycle "force_stop" Value.null (kvs.getD "force_stop_reason" Value.null)
      Value.null]
   else [])

/-- Main-agent text handling of `parse` (parser.py lines 293-299). -/
def dataEvents (kvs : ObjList) : List ParsedEvent :=
  if kvs.hasKey "data" then
    let chunk_text := kvs.getD "data" Value.null
    if chunk_text.truthy then [ParsedEvent.text chunk_text Value.null] else []
  else []

/-- Reasoning-text handling of `parse` (parser.py lines 332-341). -/
def reasoningEvents (kvs : ObjList) : List ParsedEvent :=
  if kvs.hasKey "reasoningText" then
    let reasoning_text := kvs.getD "reasoningText" Value.null
    if reasoning_text.truthy then
      [ParsedEvent.reasoning reasoning_text
        (if kvs.hasKey "reasoning_signature" then
          vobj [("signature", kvs.getD "reasoning_signature" (Value.str ""))]
         else Value.null)]
    else []
  else []

/-- Relay detection inside the tool-stream branch (parser.py line 270):
the stream data is a dict holding both an `event` and a `skill_name` key. -/
def relayData : Value → Option (Value × Value)
  | .obj sd =>
    if sd.hasKey "event" && sd.hasKey "skill_name" then
      some (sd.getD "event" Value.null, sd.getD "skill_name" Value.null)
    else none
  | _ => none

/-- The `tool_use if isinstance(tool_use, dict) else \x7b\x7d` coercion of
parser.py line 287. -/
def asDict : Value → Value
  | .obj kvs => .obj kvs
  | _ => .obj .nil

/-- Marking of the relay's originating tool call as an active sub-agent tool
(parser.py lines 274-276). -/
def markActiveSubagent (tool_use : Value) : ParseM Unit := do
  match tool_use with
  | .obj tu =>
    if (tu.getD "toolUseId" Value.null).truthy then do
      let idv := tu.getD "toolUseId" Value.null
      let st ← ParseM.get
      let s ← ParseM.liftE (setAddE st.active_subagent_tools idv)
      ParseM.set { st with active_subagent_tools := s }
    else Pure.pure ()
  | _ => Pure.pure ()

/-- Tool-use section of `parse` (parser.py lines 301-305): main-agent
emission, suppressed while any sub-agent tool is active. -/
def toolUseSection (event : Value) (acc : List ParsedEvent) : ParseM (List ParsedEvent) := do
  match ← ParseM.liftE (extract_tool_use_from_event event) with
  | some tool_use =>
    if (Value.obj tool_use).truthy then do
      let st ← ParseM.get
      if st.active_subagent_tools.isEmpty then do
        let evs ← emit_tool_use_event tool_use Value.null
        Pure.pure (acc ++ evs)
      else Pure.pure acc
    else Pure.pure acc
  | none => Pure.pure acc

/-- Tool-result section of `parse` (parser.py lines 307-330): name recovery
through `tool_use_mapping`, suppression plus removal for active sub-agent
tools, emission otherwise. -/
def toolResultSection (event : Value) (acc : List ParsedEvent) : ParseM (List ParsedEvent) := do
  match ← ParseM.liftE (extract_tool_result_from_event event) with
  | some tool_result =>
    if (Value.obj tool_result).truthy then do
      let tool_use_id := tool_result.getD "toolUseId" (Value.str "")
      let st ← ParseM.get
      let tool_name ← ParseM.liftE (vdictGetE st.tool_use_mapping tool_use_id
        (Value.str "unknown"))
      let result_content := extract_result_content (Value.obj tool_result)
      let status := tool_result.getD "status" (Value.str "")
      let inActive ← ParseM.liftE (setContainsE st.active_subagent_tools tool_use_id)
      if inActive then do
        let st2 ← ParseM.get
        ParseM.set
          { st2 with active_subagent_tools := setDiscard st2.active_subagent_tools tool_use_id }
        Pure.pure acc
      else
        Pure.pure (acc ++ [ParsedEvent.toolResult result_content tool_name tool_use_id
          (if status.truthy then vobj [("status", status)] else Value.null) Value.null])
    else Pure.pure acc
  | none => Pure.pure acc

/-- Fall-through tail of `parse` (parser.py lines 293-343): text, tool use,
tool result, reasoning. -/
def parseMainRest (kvs : ObjList) (acc : List ParsedEvent) : ParseM (List ParsedEvent) := do
  let acc := acc ++ dataEvents kvs
  let acc ← toolUseSection (Value.obj kvs) acc
  let acc ← toolResultSection (Value.obj kvs) acc
  Pure.pure (acc ++ reasoningEvents kvs)

/-- Tool-stream branch of `parse` (parser.py lines 263-291): a truthy-dict
`tool_stream_event` either relays a sub-agent event, emits a plain
`ToolStreamEvent`, or (with a falsy tool use and a `None` data payload)
falls through to the main rules. -/
def parseToolStreamBranch (kvs ts : ObjList) (acc : List ParsedEvent) :
    ParseM (List ParsedEvent) :=
  let tool_use := ts.getD "tool_use" Value.null
  let stream_data := ts.getD "data" Value.null
  match relayData stream_data with
  | some (sub_event, skill_name) => do
    markActiveSubagent tool_use
    let sub_parsed ← parse_subagent_event sub_event skill_name
    Pure.pure (acc ++ sub_parsed)
  | none =>
    if tool_use.truthy ∨ stream_data ≠ Value.null then
      Pure.pure (acc ++ [ParsedEvent.toolStream (asDict tool_use) stream_data])
    else
      parseMainRest kvs acc

/-- Body of `parse` after the orchestration dispatch (parser.py lines
230-343): lifecycle flags, then the tool-stream branch or the main
fall-through rules; a truthy non-dict `tool_stream_event` raises
`AttributeError` at the `.get` of parser.py line 266. -/
def parseNonOrchestration (kvs : ObjList) : ParseM (List ParsedEvent) :=
  let acc := lifecycleEvents kvs
  let tool_stream := kvs.getD "tool_stream_event" (vobj [])
  if tool_stream.truthy then
    match tool_stream with
    | .obj ts => parseToolStreamBranch kvs ts acc
    | _ => ParseM.throw PyError.attributeError
  else
    parseMainRest kvs acc

/-- `parse` on an event dict: orchestration type dispatch first (parser.py
lines 177-228), everything else after. -/
def parseObj (kvs : ObjList) : ParseM (List ParsedEvent) :=
  match orchestrationEvents kvs with
  | some evs => Pure.pure evs
  | none => parseNonOrchestration kvs

/-- `StrandsEventParser.parse` (parser.py lines 170-343).  The unused
`debug` parameter is dropped; a non-dict event returns no events
(parser.py lines 172-173). -/
def parse (event : Value) : ParseM (List ParsedEvent) :=
  match event with
  | .obj kvs => parseObj kvs
  | _ => Pure.pure []

/-- Abstract renderer of `src/utils/strands_stream/renderers/base.py`,
embedded as a record of handler functions.  A handler's Python return value
is any object: `Value.null` embeds returning `None` (skipped), a
`Value.list` is extended into the results, anything else is appended.  The
`on_multiagent_node_stream` handler is the base-class default, which
recursively processes the wrapped inner raw event; it is wired directly into
`process` below. -/
structure Renderer where
  on_text : ParsedEvent → Value
  on_tool_use : ParsedEvent → Value
  on_tool_result : ParsedEvent → Value
  on_tool_stream : ParsedEvent → Value
  on_reasoning : ParsedEvent → Value
  on_lifecycle : ParsedEvent → Value
  on_multiagent_node_start : ParsedEvent → Value
  on_multiagent_node_stop : ParsedEvent → Value
  on_multiagent_handoff : ParsedEvent → Value
  on_multiagent_result : ParsedEvent → Value

/-- Dispatch table of `BaseStreamRenderer.process` (base.py lines 35-60)
for every event kind except the node-stream recursion. -/
def applyHandler (r : Renderer) (ev : ParsedEvent) : Value :=
  match ev with
  | .text .. => r.on_text ev
  | .currentToolUse .. => r.on_tool_use ev
  | .toolResult .. => r.on_tool_result ev
  | .toolStream .. => r.on_tool_stream ev
  | .reasoning .. => r.on_reasoning ev
  | .lifecycle .. => r.on_lifecycle ev
  | .nodeStart .. => r.on_multiagent_node_start ev
  | .nodeStream .. => Value.null
  | .nodeStop .. => r.on_multiagent_node_stop ev
  | .handoff .. => r.on_multiagent_handoff ev
  | .maResult .. => r.on_multiagent_result ev

/-- Result collection of `BaseStreamRenderer.process` (base.py lines 62-66):
`None` is skipped, a list is extended, anything else appended. -/
def collectResult (v : Value) : List Value :=
  match v with
  | .null => []
  | .list xs => xs.toList
  | v => [v]

mutual
/-- `BaseStreamRenderer.process` (base.py lines 30-68).  The recursion
through the default `on_multiagent_node_stream` handler (base.py lines
102-105) is bounded by `fuel`, which dominates the nesting depth of
node-stream wrappers; Python's recursion is depth-bounded the same way by
its call stack. -/
def process (r : Renderer) : Nat → Value → ParseM (List Value)
  | 0, _ => Pure.pure []
  | n + 1, event => do
    let evs ← parse event
    processEvents r n evs
termination_by n _ => (n, 0)

def processEvents (r : Renderer) (n : Nat) : List ParsedEvent → ParseM (List Value)
  | [] => Pure.pure []
  | ev :: rest => do
    let rs ←
      match ev with
      | .nodeStream _ inner => process r n inner
      | _ => Pure.pure (collectResult (applyHandler r ev))
    let rest' ← processEvents r n rest
    Pure.pure (rs ++ rest')
termination_by l => (n, l.length + 1)
end

/-- Session state a `PResult` carries, whether the call returned or raised. -/
def PResult.state : PResult α → ParserState
  | .ok _ s => s
  | .err _ s => s

def PResult.isOk : PResult α → Bool
  | .ok _ _ => true
  | .err _ _ => false

def ObjList.keysNodup : ObjList → Bool
  | .nil => true
  | .cons k _ t => !(t.hasKey k) && t.keysNodup

mutual
/-- Well-formed values: every dict inside has duplicate-free keys (true of
any value that actually comes out of a Python dict). -/
def Value.wfKeys : Value → Bool
  | .null => true
  | .bool _ => true
  | .int _ => true
  | .str _ => true
  | .list xs => xs.wfKeysL
  | .obj kvs => kvs.keysNodup && kvs.wfKeysO

def ValueList.wfKeysL : ValueList → Bool
  | .nil => true
  | .cons v t => v.wfKeys && t.wfKeysL

def ObjList.wfKeysO : ObjList → Bool
  | .nil => true
  | .cons _ v t => v.wfKeys && t.wfKeysO
end

/-- Membership of a key-value entry in a dict. -/
def ObjList.entryHolds : ObjList → String → Value → Prop
  | .nil, _, _ => False
  | .cons k v t, k2, v2 => (k2 = k ∧ v2 = v) ∨ t.entryHolds k2 v2

def ParsedEvent.isText : ParsedEvent → Bool
  | .text _ _ => true
  | _ => false

def ParsedEvent.isCurrentToolUse : ParsedEvent → Bool
  | .currentToolUse _ _ _ _ => true
  | _ => false

def ParsedEvent.isToolResult : ParsedEvent → Bool
  | .toolResult _ _ _ _ _ => true
  | _ => false

def ParsedEvent.isToolStream : ParsedEvent → Bool
  | .toolStream _ _ => true
  | _ => false

/-- Claim C10's invariant on a single event: a `CurrentToolUseEvent` carries
either `None` or a non-empty input dict. -/
def ctuInputOK (ev : ParsedEvent) : Prop :=
  ∀ n i inp s, ev = .currentToolUse n i inp s →
    inp = Value.null ∨ ∃ k v t, inp = Value.obj (.cons k v t)

/-- Claim C7's growth relation on the accumulating session maps: displayed
ids, tool-name keys and last-input keys are never dropped by one `parse`
call, and the defensive processed-id sets are never touched. -/
def monoStep (st st' : ParserState) : Prop :=
  (∀ v, v ∈ st.displayed_tool_calls → v ∈ st'.displayed_tool_calls) ∧
  (∀ k, vdictHasKey st.tool_use_mapping k = true → vdictHasKey st'.tool_use_mapping k = true) ∧
  (∀ k, kdictHasKey st.last_tool_input k = true → kdictHasKey st'.last_tool_input k = true) ∧
  st'.processed_event_ids = st.processed_event_ids ∧
  st'.processed_data_events = st.processed_data_events ∧
  st'.processed_subagent_data_events = st.processed_subagent_data_events

/-- Claim C7's licence for removing an id from `active_subagent_tools`
during one `parse` call: the raw event carries a truthy tool result whose
`toolUseId` equals the removed id (parser.py lines 307-318). -/
def removalJustified (event : Value) (x : Value) : Prop :=
  ∃ tr, extract_tool_result_from_event event = .ok (some tr) ∧
    (Value.obj tr).truthy = true ∧
    x.pyEq (tr.getD "toolUseId" (Value.str "")) = true

/-- Raw multi-agent node-stream wrapper around an inner raw event
(claim C4). -/
def nodeStreamWrapper (nid event : Value) : Value :=
  vobj [("type", .str "multiagent_node_stream"), ("node_id", nid), ("event", event)]

/-- Safety precondition on the tool-use rule of one event dict: the
extracted tool-use descriptor, when truthy, has a hashable `toolUseId`
whenever that id is truthy (an unhashable truthy id would raise a
`TypeError` at the `tool_use_mapping` write or the `displayed_tool_calls`
membership test, parser.py lines 121-125). -/
def toolUseIdOK (kvs : ObjList) : Bool :=
  match extract_tool_use_from_event (Value.obj kvs) with
  | .ok (some tu) =>
    if (Value.obj tu).truthy then
      (!(tu.getD "toolUseId" (Value.str "")).truthy ||
        (tu.getD "toolUseId" (Value.str "")).hashable)
    else true
  | _ => true

/-- Safety precondition on the tool-result rule of one event dict: the
extracted truthy tool result carries a hashable `toolUseId` (the
`tool_use_mapping.get` lookup of parser.py line 311 hashes it
unconditionally). -/
def toolResultIdOK (kvs : ObjList) : Bool :=
  match extract_tool_result_from_event (Value.obj kvs) with
  | .ok (some tr) =>
    if (Value.obj tr).truthy then (tr.getD "toolUseId" (Value.str "")).hashable
    else true
  | _ => true

/-- Safety precondition on the relay marking step (parser.py lines
274-276): a truthy `toolUseId` in the envelope's tool-use descriptor must be
hashable to enter `active_subagent_tools`. -/
def relayMarkOK (ts : ObjList) : Bool :=
  match ts.findV "tool_use" with
  | some (Value.obj tu) =>
    !(tu.getD "toolUseId" Value.null).truthy || (tu.getD "toolUseId" Value.null).hashable
  | _ => true

/-- Safety precondition on a relayed sub-agent event: the inner event is a
dict whose tool-use and tool-result rules are id-safe, and the skill name,
when truthy, is hashable (it becomes half of a `last_tool_input` key). -/
def subagentSafe (sub : Value) (sk : Value) : Bool :=
  match sub with
  | .obj skvs =>
    toolUseIdOK skvs && toolResultIdOK skvs && (!sk.truthy || sk.hashable)
  | _ => false

/-- Sufficient condition for `parse` to return instead of raising; claim C1
amended.  Outside it the parser can raise: a truthy non-dict
`tool_stream_event` hits `.get` on a non-dict (parser.py line 266), a
non-dict relayed inner event hits `in`/subscript on a non-dict (lines
352-370), and unhashable truthy tool-call ids hit hash-based container
operations (lines 122, 125, 133, 276, 311). -/
def parseSafeStreamBranch (kvs tskvs : ObjList) : Bool :=
  match relayData (tskvs.getD "data" Value.null) with
  | some (sub, sk) => relayMarkOK tskvs && subagentSafe sub sk
  | none =>
    if (tskvs.getD "tool_use" Value.null).truthy ∨
        tskvs.getD "data" Value.null ≠ Value.null then true
    else toolUseIdOK kvs && toolResultIdOK kvs

def parseSafe (event : Value) : Bool :=
  match event with
  | .obj kvs =>
    match orchestrationEvents kvs with
    | some _ => true
    | none =>
      let ts := kvs.getD "tool_stream_event" (vobj [])
      if ts.truthy then
        match ts with
        | .obj tskvs => parseSafeStreamBranch kvs tskvs
        | _ => false
      else toolUseIdOK kvs && toolResultIdOK kvs
  | _ => true

@[simp] theorem ParseM.pure_apply (a : α) (s : ParserState) :
    (Pure.pure a : ParseM α) s = .ok a s := rfl

/-- Evaluation of a bind on a known result. -/
def PResult.andThen (x : PResult α) (f : α → ParseM β) : PResult β :=
  match x with
  | .ok a s' => f a s'
  | .err e s' => .err e s'

@[simp] theorem ParseM.bind_apply (x : ParseM α) (f : α → ParseM β) (s : ParserState) :
    (x >>= f) s = PResult.andThen (x s) f := rfl

@[simp] theorem PResult.andThen_ok (a : α) (s : ParserState) (f : α → ParseM β) :
    PResult.andThen (.ok a s) f = f a s := rfl

@[simp] theorem PResult.andThen_err (e : PyError) (s : ParserState) (f : α → ParseM β) :
    PResult.andThen (.err e s) f = .err e s := rfl

@[simp] theorem ParseM.get_apply (s : ParserState) : ParseM.get s = .ok s s := rfl

@[simp] theorem ParseM.set_apply (s' s : ParserState) : ParseM.set s' s = .ok () s' := rfl

@[simp] theorem ParseM.throw_apply (e : PyError) (s : ParserState) :
    (ParseM.throw e : ParseM α) s = .err e s := rfl

@[simp] theorem ParseM.liftE_ok (a : α) : ParseM.liftE (.ok a) = ParseM.pure a := rfl

@[simp] theorem ParseM.liftE_err (e : PyError) :
    (ParseM.liftE (.error e) : ParseM α) = ParseM.throw e := rfl

@[simp] theorem ParseM.purePM_apply (a : α) (s : ParserState) :
    (ParseM.pure a) s = .ok a s := rfl

@[simp] theorem ParseM.ite_apply (c : Prop) [Decidable c] (x y : ParseM α) (s : ParserState) :
    (if c then x else y) s = if c then x s else y s := by
  split <;> rfl

theorem ObjList.pyEqSub_super :
    ∀ t ys : ObjList,
      (∀ k v, ObjList.entryHolds t k v → ys.findV k = some v) →
      (∀ k v, ObjList.entryHolds t k v → v.pyEq v = true) →
      ObjList.pyEqSub t ys = true
  | .nil, _, _, _ => rfl
  | .cons k v t, ys, hfind, hrefl => by
    simp only [ObjList.pyEqSub]
    have h1 : ys.findV k = some v := hfind k v (Or.inl ⟨rfl, rfl⟩)
    have h2 : v.pyEq v = true := hrefl k v (Or.inl ⟨rfl, rfl⟩)
    rw [h1]
    simp only [h2, Bool.true_and]
    exact ObjList.pyEqSub_super t ys (fun k' v' h => hfind k' v' (Or.inr h))
      (fun k' v' h => hrefl k' v' (Or.inr h))

theorem ObjList.hasKey_of_entry :
    ∀ t : ObjList, ∀ k v, ObjList.entryHolds t k v → t.hasKey k = true
  | .nil, k, v, h => absurd h (by simp [ObjList.entryHolds])
  | .cons k0 v0 t, k, v, h => by
    rcases h with ⟨hk, _⟩ | h
    · subst hk; simp [ObjList.hasKey, ObjList.findV]
    · have ht : t.hasKey k = true := ObjList.hasKey_of_entry t k v h
      simp only [ObjList.hasKey] at ht ⊢
      simp only [ObjList.findV]
      cases hf : t.findV k with
      | none => rw [hf] at ht; simp at ht
      | some w => by_cases hkk : (k0 == k) = true <;> simp [hkk, hf]

theorem ObjList.findV_of_entry_nodup :
    ∀ kvs : ObjList, kvs.keysNodup = true →
      ∀ k v, ObjList.entryHolds kvs k v → kvs.findV k = some v
  | .nil, _, k, v, h => absurd h (by simp [ObjList.entryHolds])
  | .cons k0 v0 t, hn, k, v, h => by
    have hn' : (!(t.hasKey k0) && t.keysNodup) = true := hn
    rw [Bool.and_eq_true] at hn'
    rcases h with ⟨hk, hv⟩ | h
    · subst hk; subst hv; simp [ObjList.findV]
    · have hne : ¬(k0 = k) := by
        intro he
        subst he
        have hkey : t.hasKey k0 = true := ObjList.hasKey_of_entry t k0 v h
        rw [hkey] at hn'
        simp at hn'
      simp only [ObjList.findV]
      rw [if_neg (by simpa using hne)]
      exact ObjList.findV_of_entry_nodup t hn'.2 k v h

mutual
/-- Python equality is reflexive on well-formed values. -/
theorem Value.pyEq_refl : ∀ v : Value, v.wfKeys = true → v.pyEq v = true
  | .null, _ => rfl
  | .bool b, _ => by cases b <;> rfl
  | .int n, _ => by simp [Value.pyEq]
  | .str s, _ => by simp [Value.pyEq]
  | .list xs, h => by
      simp only [Value.pyEq]
      exact ValueList.pyEqL_refl xs (by simpa [Value.wfKeys] using h)
  | .obj kvs, h => by
      have h' : (kvs.keysNodup && kvs.wfKeysO) = true := by simpa [Value.wfKeys] using h
      rw [Bool.and_eq_true] at h'
      have hsub : ObjList.pyEqSub kvs kvs = true :=
        ObjList.pyEqSub_super kvs kvs
          (ObjList.findV_of_entry_nodup kvs h'.1)
          (fun k v hv => ObjList.refl_all kvs h'.2 k v hv)
      simp [Value.pyEq, hsub]

theorem ValueList.pyEqL_refl : ∀ xs : ValueList, xs.wfKeysL = true → ValueList.pyEqL xs xs = true
  | .nil, _ => rfl
  | .cons x t, h => by
      have h' : (x.wfKeys && t.wfKeysL) = true := h
      rw [Bool.and_eq_true] at h'
      simp only [ValueList.pyEqL]
      rw [Value.pyEq_refl x h'.1, ValueList.pyEqL_refl t h'.2]
      rfl

theorem ObjList.refl_all : ∀ kvs : ObjList, kvs.wfKeysO = true →
    ∀ k v, ObjList.entryHolds kvs k v → v.pyEq v = true
  | .nil, _, k, v, h => absurd h (by simp [ObjList.entryHolds])
  | .cons k0 v0 t, h, k, v, hv => by
      have h' : (v0.wfKeys && t.wfKeysO) = true := h
      rw [Bool.and_eq_true] at h'
      rcases hv with ⟨_, hveq⟩ | hv
      · rw [hveq]; exact Value.pyEq_refl v0 h'.1
      · exact ObjList.refl_all t h'.2 k v hv
end

theorem monoStep_refl (st : ParserState) : monoStep st st :=
  ⟨fun _ h => h, fun _ h => h, fun _ h => h, rfl, rfl, rfl⟩

theorem monoStep_trans {s1 s2 s3 : ParserState} (h1 : monoStep s1 s2) (h2 : monoStep s2 s3) :
    monoStep s1 s3 :=
  ⟨fun v hv => h2.1 v (h1.1 v hv),
   fun k hk => h2.2.1 k (h1.2.1 k hk),
   fun k hk => h2.2.2.1 k (h1.2.2.1 k hk),
   h2.2.2.2.1.trans h1.2.2.2.1,
   h2.2.2.2.2.1.trans h1.2.2.2.2.1,
   h2.2.2.2.2.2.trans h1.2.2.2.2.2⟩

theorem recordToolMapping_skip (id nm : Value) (st : ParserState)
    (h : (id.truthy && nm.truthy) = false) :
    recordToolMapping id nm st = .ok () st := by
  simp [recordToolMapping, h]

theorem recordToolMapping_set (id nm : Value) (st : ParserState)
    (h : (id.truthy && nm.truthy) = true) (hh : id.hashable = true) :
    recordToolMapping id nm st =
      .ok () { st with tool_use_mapping := vdictSet st.tool_use_mapping id nm } := by
  simp [recordToolMapping, h, vdictSetE, hh]

theorem recordToolMapping_bad (id nm : Value) (st : ParserState)
    (h : (id.truthy && nm.truthy) = true) (hh : id.hashable = false) :
    recordToolMapping id nm st = .err .typeError st := by
  simp [recordToolMapping, h, vdictSetE, hh]

theorem checkIsNew_skip (id : Value) (st : ParserState) (h : id.truthy = false) :
    checkIsNew id st = .ok false st := by
  simp [checkIsNew, h]

theorem checkIsNew_mem (id : Value) (st : ParserState) (h : id.truthy = true)
    (hh : id.hashable = true) :
    checkIsNew id st = .ok (!(pmemV st.displayed_tool_calls id)) st := by
  simp [checkIsNew, h, setContainsE, hh]

theorem checkIsNew_bad (id : Value) (st : ParserState) (h : id.truthy = true)
    (hh : id.hashable = false) :
    checkIsNew id st = .err .typeError st := by
  simp [checkIsNew, h, setContainsE, hh]

theorem checkInputChanged_skip (id src inp : Value) (st : ParserState) (h : id.truthy = false) :
    checkInputChanged id src inp st = .ok true st := by
  simp [checkInputChanged, h]

theorem checkInputChanged_bad (id src inp : Value) (st : ParserState) (h : id.truthy = true)
    (hh : ToolKey.hashable (if src.truthy then ToolKey.sub src id else ToolKey.plain id) =
      false) :
    checkInputChanged id src inp st = .err .typeError st := by
  simp only [checkInputChanged, h, if_true, ParseM.bind_apply, ParseM.get_apply,
    PResult.andThen_ok, kdictFindE, hh]
  simp

theorem checkInputChanged_fresh (id src inp : Value) (st : ParserState) (h : id.truthy = true)
    (hh : ToolKey.hashable (if src.truthy then ToolKey.sub src id else ToolKey.plain id) = true)
    (hf : st.last_tool_input.find?
      (fun kv => kv.1.pyEqK (if src.truthy then ToolKey.sub src id else ToolKey.plain id)) =
      none) :
    checkInputChanged id src inp st =
      .ok true { st with last_tool_input := (kdictSet st.last_tool_input
        (if src.truthy then ToolKey.sub src id else ToolKey.plain id) inp) } := by
  simp only [checkInputChanged, h, if_true, ParseM.bind_apply, ParseM.get_apply,
    PResult.andThen_ok, kdictFindE, hh]
  simp [hf]

theorem checkInputChanged_changed (id src inp : Value) (st : ParserState) (kk : ToolKey)
    (vv : Value) (h : id.truthy = true)
    (hh : ToolKey.hashable (if src.truthy then ToolKey.sub src id else ToolKey.plain id) = true)
    (hf : st.last_tool_input.find?
      (fun kv => kv.1.pyEqK (if src.truthy then ToolKey.sub src id else ToolKey.plain id)) =
      some (kk, vv))
    (hne : inp.pyEq vv = false) :
    checkInputChanged id src inp st =
      .ok true { st with last_tool_input := (kdictSet st.last_tool_input
        (if src.truthy then ToolKey.sub src id else ToolKey.plain id) inp) } := by
  simp only [checkInputChanged, h, if_true, ParseM.bind_apply, ParseM.get_apply,
    PResult.andThen_ok, kdictFindE, hh]
  simp [hf, hne]

theorem checkInputChanged_same (id src inp : Value) (st : ParserState) (kk : ToolKey)
    (vv : Value) (h : id.truthy = true)
    (hh : ToolKey.hashable (if src.truthy then ToolKey.sub src id else ToolKey.plain id) = true)
    (hf : st.last_tool_input.find?
      (fun kv => kv.1.pyEqK (if src.truthy then ToolKey.sub src id else ToolKey.plain id)) =
      some (kk, vv))
    (he : inp.pyEq vv = true) :
    checkInputChanged id src inp st = .ok false st := by
  simp only [checkInputChanged, h, if_true, ParseM.bind_apply, ParseM.get_apply,
    PResult.andThen_ok, kdictFindE, hh]
  simp [hf, he]

theorem emitDecision_new (b2 : Bool) (nm id inp src : Value) (st : ParserState)
    (hh : id.hashable = true) :
    emitDecision true b2 nm id inp src st =
      .ok [ParsedEvent.currentToolUse nm id (if inp.truthy then inp else Value.null) src]
        { st with displayed_tool_calls :=
          if pmemV st.displayed_tool_calls id then st.displayed_tool_calls
          else st.displayed_tool_calls ++ [id] } := by
  simp [emitDecision, setAddE, hh]

theorem emitDecision_new_bad (b2 : Bool) (nm id inp src : Value) (st : ParserState)
    (hh : id.hashable = false) :
    emitDecision true b2 nm id inp src st = .err .typeError st := by
  simp [emitDecision, setAddE, hh]

theorem emitDecision_update (nm id inp src : Value) (st : ParserState) :
    emitDecision false true nm id inp src st =
      .ok [ParsedEvent.currentToolUse nm id (if inp.truthy then inp else Value.null) src]
        st := by
  simp [emitDecision]

theorem emitDecision_silent (nm id inp src : Value) (st : ParserState) :
    emitDecision false false nm id inp src st = .ok [] st := by
  simp [emitDecision]

theorem vdictHasKey_vdictSet_mono (m : List (Value × Value)) (k0 : Value) (v : Value)
    (k : Value) (h : vdictHasKey m k = true) : vdictHasKey (vdictSet m k0 v) k = true := by
  unfold vdictSet
  split
  · unfold vdictHasKey at h ⊢
    rw [List.any_map]
    rw [show ((fun kv => kv.1.pyEq k) ∘ fun kv =>
        if kv.1.pyEq k0 = true then (kv.1, v) else kv) = fun kv : Value × Value =>
        kv.1.pyEq k from funext fun kv => by by_cases hkv : kv.1.pyEq k0 = true <;>
          simp [hkv, Function.comp]]
    exact h
  · unfold vdictHasKey at h ⊢
    rw [List.any_append, h]
    rfl

theorem kdictHasKey_kdictSet_mono (m : List (ToolKey × Value)) (k0 : ToolKey) (v : Value)
    (k : ToolKey) (h : kdictHasKey m k = true) : kdictHasKey (kdictSet m k0 v) k = true := by
  unfold kdictSet
  split
  · unfold kdictHasKey at h ⊢
    rw [List.any_map]
    rw [show ((fun kv => kv.1.pyEqK k) ∘ fun kv =>
        if kv.1.pyEqK k0 = true then (kv.1, v) else kv) = fun kv : ToolKey × Value =>
        kv.1.pyEqK k from funext fun kv => by by_cases hkv : kv.1.pyEqK k0 = true <;>
          simp [hkv, Function.comp]]
    exact h
  · unfold kdictHasKey at h ⊢
    rw [List.any_append, h]
    rfl

@[simp] theorem exceptBind_ok (a : α) (f : α → Except PyError β) :
    ((Except.ok a : Except PyError α) >>= f) = f a := rfl

@[simp] theorem exceptBind_err (e : PyError) (f : α → Except PyError β) :
    ((Except.error e : Except PyError α) >>= f) = Except.error e := rfl

theorem ObjList.findV_isSome_of_hasKey (kvs : ObjList) (k : String)
    (h : kvs.hasKey k = true) : ∃ v, kvs.findV k = some v := by
  unfold ObjList.hasKey at h
  cases hf : kvs.findV k with
  | none => rw [hf] at h; simp at h
  | some v => exact ⟨v, rfl⟩

theorem extract_tool_use_obj_ok (kvs : ObjList) :
    ∃ r, extract_tool_use_from_event (Value.obj kvs) = .ok r := by
  unfold extract_tool_use_from_event
  simp only [pyContains, exceptBind_ok]
  by_cases h1 : kvs.hasKey "toolUse" = true
  · simp only [h1, if_true]
    obtain ⟨v, hv⟩ := ObjList.findV_isSome_of_hasKey kvs _ h1
    simp only [pyIndexStr, hv]
    cases v <;> exact ⟨_, rfl⟩
  · simp only [h1, if_false, Bool.false_eq_true]
    by_cases h2 : kvs.hasKey "current_tool_use" = true
    · simp only [h2, if_true]
      obtain ⟨v, hv⟩ := ObjList.findV_isSome_of_hasKey kvs _ h2
      simp only [pyIndexStr, hv]
      cases v <;> exact ⟨_, rfl⟩
    · simp only [h2, if_false, Bool.false_eq_true]
      by_cases h3 : kvs.hasKey "message" = true
      · simp only [h3, if_true]
        obtain ⟨v, hv⟩ := ObjList.findV_isSome_of_hasKey kvs _ h3
        simp only [pyIndexStr, hv]
        cases v with
        | obj mk =>
          simp only [exceptBind_ok]
          cases hg : mk.getD "content" (vlist []) <;> simp [hg] <;>
            first
              | exact ⟨_, rfl⟩
              | (cases findToolUseInContent _ <;> exact ⟨_, rfl⟩)
        | null => exact ⟨_, rfl⟩
        | bool b => exact ⟨_, rfl⟩
        | int n => exact ⟨_, rfl⟩
        | str s => exact ⟨_, rfl⟩
        | list xs => exact ⟨_, rfl⟩
      · simp only [h3, if_false, Bool.false_eq_true]
        exact ⟨_, rfl⟩

theorem extract_tool_result_obj_ok (kvs : ObjList) :
    ∃ r, extract_tool_result_from_event (Value.obj kvs) = .ok r := by
  unfold extract_tool_result_from_event
  simp only [pyContains, exceptBind_ok]
  by_cases h1 : kvs.hasKey "message" = true
  · simp only [h1]
    obtain ⟨v, hv⟩ := ObjList.findV_isSome_of_hasKey kvs _ h1
    simp only [pyIndexStr, hv, Bool.not_true, if_false, exceptBind_ok]
    cases v with
    | obj mk =>
      simp only []
      cases hg : mk.getD "content" (vlist []) <;> simp [hg] <;> exact ⟨_, rfl⟩
    | null => exact ⟨_, rfl⟩
    | bool b => exact ⟨_, rfl⟩
    | int n => exact ⟨_, rfl⟩
    | str s => exact ⟨_, rfl⟩
    | list xs => exact ⟨_, rfl⟩
  · simp only [h1]
    simp

theorem emitTail_master (idv nmv inpv src : Value) (st st1 : ParserState)
    (hiobj : ∃ kv, inpv = Value.obj kv)
    (hidt : idv.truthy = true) (hidh : idv.hashable = true)
    (ha : st1.active_subagent_tools = st.active_subagent_tools)
    (hp1 : st1.processed_event_ids = st.processed_event_ids)
    (hp2 : st1.processed_data_events = st.processed_data_events)
    (hp3 : st1.processed_subagent_data_events = st.processed_subagent_data_events)
    (hd : ∀ v, v ∈ st.displayed_tool_calls → v ∈ st1.displayed_tool_calls)
    (hm : ∀ k, vdictHasKey st.tool_use_mapping k = true →
      vdictHasKey st1.tool_use_mapping k = true)
    (hl : ∀ k, kdictHasKey st.last_tool_input k = true →
      kdictHasKey st1.last_tool_input k = true) :
    (monoStep st (emitTailPhases idv nmv inpv src st1).state ∧
      (emitTailPhases idv nmv inpv src st1).state.active_subagent_tools =
        st.active_subagent_tools) ∧
    (∀ evs st2, emitTailPhases idv nmv inpv src st1 = .ok evs st2 →
      evs = [] ∨ ∃ n i inpv2, evs = [ParsedEvent.currentToolUse n i inpv2 src] ∧
        (inpv2 = Value.null ∨ ∃ k v t, inpv2 = Value.obj (.cons k v t))) ∧
    ((src.truthy = true → src.hashable = true) →
      (emitTailPhases idv nmv inpv src st1).isOk = true) := by
  have hmono1 : monoStep st st1 := ⟨hd, hm, hl, hp1, hp2, hp3⟩
  have hsh : (if inpv.truthy = true then inpv else Value.null) = Value.null ∨
      ∃ k v t, (if inpv.truthy = true then inpv else Value.null) =
        Value.obj (.cons k v t) := by
    obtain ⟨kv, rfl⟩ := hiobj
    cases kv with
    | nil => left; simp [Value.truthy]
    | cons k v t => right; exact ⟨k, v, t, by simp [Value.truthy]⟩
  unfold emitTailPhases
  simp only [ParseM.bind_apply]
  rw [checkIsNew_mem _ _ hidt hidh]
  simp only [PResult.andThen_ok, ParseM.bind_apply]
  by_cases hkh : ToolKey.hashable
      (if src.truthy then ToolKey.sub src idv else ToolKey.plain idv) = true
  · cases hf : st1.last_tool_input.find?
        (fun kv => kv.1.pyEqK (if src.truthy then ToolKey.sub src idv
          else ToolKey.plain idv)) with
    | none =>
      rw [checkInputChanged_fresh _ _ _ _ hidt hkh hf]
      simp only [PResult.andThen_ok, ParseM.bind_apply, PResult.state]
      have hmono2 : monoStep st { st1 with last_tool_input := (kdictSet st1.last_tool_input
          (if src.truthy then ToolKey.sub src idv else ToolKey.plain idv) inpv) } :=
        monoStep_trans hmono1 ⟨fun _ h => h,
          fun _ h => h, fun k hk => kdictHasKey_kdictSet_mono _ _ _ _ hk, rfl, rfl, rfl⟩
      by_cases hmem : pmemV st1.displayed_tool_calls idv = true
      · rw [hmem]
        simp only [Bool.not_true]
        rw [emitDecision_update]
        simp only [PResult.state]
        exact ⟨⟨hmono2, ha⟩, fun evs st2 h => by
          cases h; exact Or.inr ⟨_, _, _, rfl, hsh⟩, fun _ => rfl⟩
      · rw [Bool.not_eq_true] at hmem
        rw [hmem]
        simp only [Bool.not_false]
        rw [emitDecision_new _ _ _ _ _ _ hidh]
        simp only [PResult.state]
        refine ⟨⟨monoStep_trans hmono2 ⟨fun v hv => ?_, fun _ h => h, fun _ h => h,
          rfl, rfl, rfl⟩, ha⟩, fun evs st2 h => by
            cases h; exact Or.inr ⟨_, _, _, rfl, hsh⟩, fun _ => rfl⟩
        split
        · exact hv
        · exact List.mem_append_left _ hv
    | some kvv =>
      obtain ⟨kk, vv⟩ := kvv
      by_cases heq : inpv.pyEq vv = true
      · rw [checkInputChanged_same _ _ _ _ _ _ hidt hkh hf heq]
        simp only [PResult.andThen_ok, ParseM.bind_apply, PResult.state]
        by_cases hmem : pmemV st1.displayed_tool_calls idv = true
        · rw [hmem]
          simp only [Bool.not_true]
          rw [emitDecision_silent]
          simp only [PResult.state]
          exact ⟨⟨hmono1, ha⟩, fun evs st2 h => by cases h; exact Or.inl rfl,
            fun _ => rfl⟩
        · rw [Bool.not_eq_true] at hmem
          rw [hmem]
          simp only [Bool.not_false]
          rw [emitDecision_new _ _ _ _ _ _ hidh]
          simp only [PResult.state]
          refine ⟨⟨monoStep_trans hmono1 ⟨fun v hv => ?_, fun _ h => h, fun _ h => h,
            rfl, rfl, rfl⟩, ha⟩, fun evs st2 h => by
              cases h; exact Or.inr ⟨_, _, _, rfl, hsh⟩, fun _ => rfl⟩
          split
          · exact hv
          · exact List.mem_append_left _ hv
      · rw [Bool.not_eq_true] at heq
        rw [checkInputChanged_changed _ _ _ _ _ _ hidt hkh hf heq]
        simp only [PResult.andThen_ok, ParseM.bind_apply, PResult.state]
        have hmono2 : monoStep st { st1 with last_tool_input := (kdictSet st1.last_tool_input
            (if src.truthy then ToolKey.sub src idv else ToolKey.plain idv) inpv) } :=
          monoStep_trans hmono1 ⟨fun _ h => h,
            fun _ h => h, fun k hk => kdictHasKey_kdictSet_mono _ _ _ _ hk, rfl, rfl, rfl⟩
        by_cases hmem : pmemV st1.displayed_tool_calls idv = true
        · rw [hmem]
          simp only [Bool.not_true]
          rw [emitDecision_update]
          simp only [PResult.state]
          exact ⟨⟨hmono2, ha⟩, fun evs st2 h => by
            cases h; exact Or.inr ⟨_, _, _, rfl, hsh⟩, fun _ => rfl⟩
        · rw [Bool.not_eq_true] at hmem
          rw [hmem]
          simp only [Bool.not_false]
          rw [emitDecision_new _ _ _ _ _ _ hidh]
          simp only [PResult.state]
          refine ⟨⟨monoStep_trans hmono2 ⟨fun v hv => ?_, fun _ h => h, fun _ h => h,
            rfl, rfl, rfl⟩, ha⟩, fun evs st2 h => by
              cases h; exact Or.inr ⟨_, _, _, rfl, hsh⟩, fun _ => rfl⟩
          split
          · exact hv
          · exact List.mem_append_left _ hv
  · rw [checkInputChanged_bad _ _ _ _ hidt (by simpa using hkh)]
    simp only [PResult.andThen_err]
    refine ⟨⟨hmono1, ha⟩, ?_, ?_⟩
    · intro evs st2 h
      cases h
    · intro hsrc
      exfalso
      by_cases hst : src.truthy = true
      · have := hsrc hst
        apply hkh
        simp [hst, ToolKey.hashable, this, hidh]
      · apply hkh
        rw [Bool.not_eq_true] at hst
        simp [hst, ToolKey.hashable, hidh]

theorem emit_master (tu : ObjList) (src : Value) (st : ParserState) :
    (monoStep st (emit_tool_use_event tu src st).state ∧
      (emit_tool_use_event tu src st).state.active_subagent_tools =
        st.active_subagent_tools) ∧
    (∀ evs st2, emit_tool_use_event tu src st = .ok evs st2 →
      evs = [] ∨ ∃ n i inpv, evs = [ParsedEvent.currentToolUse n i inpv src] ∧
        (inpv = Value.null ∨ ∃ k v t, inpv = Value.obj (.cons k v t))) ∧
    (((tu.getD "toolUseId" (Value.str "")).truthy = true →
        (tu.getD "toolUseId" (Value.str "")).hashable = true) →
      ((tu.getD "toolUseId" (Value.str "")).truthy = true → src.truthy = true →
        src.hashable = true) →
      (emit_tool_use_event tu src st).isOk = true) := by
  have hiobj : ∃ kv, (match tu.getD "input" Value.null with
      | .obj kv => Value.obj kv
      | _ => Value.obj .nil) = Value.obj kv := by
    cases tu.getD "input" Value.null <;> exact ⟨_, rfl⟩
  unfold emit_tool_use_event
  simp only [ParseM.bind_apply]
  by_cases hidt : (tu.getD "toolUseId" (Value.str "")).truthy = true
  · by_cases hidh : (tu.getD "toolUseId" (Value.str "")).hashable = true
    · by_cases hnm : (tu.getD "name" (Value.str "unknown")).truthy = true
      · rw [recordToolMapping_set _ _ _ (by simp [hidt, hnm]) hidh]
        simp only [PResult.andThen_ok, ParseM.bind_apply, PResult.state]
        have h := emitTail_master (tu.getD "toolUseId" (Value.str ""))
          (tu.getD "name" (Value.str "unknown"))
          (match tu.getD "input" Value.null with
            | .obj kv => Value.obj kv
            | _ => Value.obj .nil) src st
          { st with tool_use_mapping := (vdictSet st.tool_use_mapping
            (tu.getD "toolUseId" (Value.str "")) (tu.getD "name" (Value.str "unknown"))) }
          hiobj hidt hidh rfl rfl rfl rfl (fun _ h => h)
          (fun k hk => vdictHasKey_vdictSet_mono _ _ _ _ hk) (fun _ h => h)
        exact ⟨h.1, h.2.1, fun _ h2 => h.2.2 (h2 hidt)⟩
      · rw [recordToolMapping_skip _ _ _ (by simp [hnm])]
        simp only [PResult.andThen_ok, ParseM.bind_apply, PResult.state]
        have h := emitTail_master (tu.getD "toolUseId" (Value.str ""))
          (tu.getD "name" (Value.str "unknown"))
          (match tu.getD "input" Value.null with
            | .obj kv => Value.obj kv
            | _ => Value.obj .nil) src st st
          hiobj hidt hidh rfl rfl rfl rfl (fun _ h => h) (fun _ h => h) (fun _ h => h)
        exact ⟨h.1, h.2.1, fun _ h2 => h.2.2 (h2 hidt)⟩
    · by_cases hnm : (tu.getD "name" (Value.str "unknown")).truthy = true
      · rw [recordToolMapping_bad _ _ _ (by simp [hidt, hnm]) (by simpa using hidh)]
        simp only [PResult.andThen_err]
        refine ⟨⟨monoStep_refl st, by trivial⟩, ?_, ?_⟩
        · intro evs st2 h; cases h
        · intro h1 _; exact absurd (h1 hidt) (by simpa using hidh)
      · rw [recordToolMapping_skip _ _ _ (by simp [hnm])]
        simp only [PResult.andThen_ok, ParseM.bind_apply, PResult.state]
        unfold emitTailPhases
        simp only [ParseM.bind_apply]
        rw [checkIsNew_bad _ _ hidt (by simpa using hidh)]
        simp only [PResult.andThen_err]
        refine ⟨⟨monoStep_refl st, by trivial⟩, ?_, ?_⟩
        · intro evs st2 h; cases h
        · intro h1 _; exact absurd (h1 hidt) (by simpa using hidh)
  · have hidt2 : (tu.getD "toolUseId" (Value.str "")).truthy = false := by
      simpa using hidt
    have hsh : (if (match tu.getD "input" Value.null with
        | .obj kv => Value.obj kv
        | _ => Value.obj .nil).truthy = true then
          (match tu.getD "input" Value.null with
          | .obj kv => Value.obj kv
          | _ => Value.obj .nil) else Value.null) = Value.null ∨
        ∃ k v t, (if (match tu.getD "input" Value.null with
        | .obj kv => Value.obj kv
        | _ => Value.obj .nil).truthy = true then
          (match tu.getD "input" Value.null with
          | .obj kv => Value.obj kv
          | _ => Value.obj .nil) else Value.null) = Value.obj (.cons k v t) := by
      obtain ⟨kv, hkv⟩ := hiobj
      rw [hkv]
      cases kv with
      | nil => left; simp [Value.truthy]
      | cons k v t => right; exact ⟨k, v, t, by simp [Value.truthy]⟩
    rw [recordToolMapping_skip _ _ _ (by simp [hidt2])]
    simp only [PResult.andThen_ok, ParseM.bind_apply, PResult.state]
    unfold emitTailPhases
    simp only [ParseM.bind_apply]
    rw [checkIsNew_skip _ _ hidt2]
    simp only [PResult.andThen_ok, ParseM.bind_apply, PResult.state]
    rw [checkInputChanged_skip _ _ _ _ hidt2]
    simp only [PResult.andThen_ok, ParseM.bind_apply, PResult.state]
    rw [emitDecision_update]
    simp only [PResult.state]
    refine ⟨⟨monoStep_refl st, by trivial⟩, ?_, ?_⟩
    · intro evs st2 h
      cases h
      exact Or.inr ⟨_, _, _, rfl, hsh⟩
    · intro _ _; rfl


theorem not_ctu_inputOK {ev : ParsedEvent} (h : ev.isCurrentToolUse = false) :
    ctuInputOK ev := by
  intro n i inp s he
  rw [he] at h
  simp [ParsedEvent.isCurrentToolUse] at h

theorem subDataPhase_state (event sk : Value) (st : ParserState) :
    (subDataPhase event sk st).state = st := by
  unfold subDataPhase
  simp only [ParseM.bind_apply]
  cases hc : pyContains event "data" with
  | error e => simp [hc, PResult.state]
  | ok b =>
    simp only [hc, ParseM.liftE_ok, ParseM.purePM_apply, ParseM.pure_apply, PResult.andThen_ok, ParseM.ite_apply]
    by_cases hb : b = true
    · simp only [hb, if_true, ParseM.bind_apply]
      cases hd : pyIndexStr event "data" <;> simp [hd, PResult.state]
    · simp only [Bool.not_eq_true] at hb
      simp [hb, PResult.state]

theorem subDataPhase_shape (event sk : Value) (st : ParserState) (devs : List ParsedEvent)
    (s2 : ParserState) (h : subDataPhase event sk st = .ok devs s2) :
    devs = [] ∨ ∃ d, devs = [ParsedEvent.text d sk] := by
  unfold subDataPhase at h
  simp only [ParseM.bind_apply] at h
  cases hc : pyContains event "data" with
  | error e => rw [hc] at h; simp at h
  | ok b =>
    rw [hc] at h
    simp only [ParseM.liftE_ok, ParseM.purePM_apply, ParseM.pure_apply, PResult.andThen_ok,
      ParseM.ite_apply] at h
    by_cases hb : b = true
    · rw [hb] at h
      simp only [if_true, ParseM.bind_apply] at h
      cases hd : pyIndexStr event "data" with
      | error e => rw [hd] at h; simp at h
      | ok d =>
        rw [hd] at h
        simp only [ParseM.liftE_ok, ParseM.purePM_apply, ParseM.pure_apply, PResult.andThen_ok] at h
        by_cases ht : d.truthy = true
        · rw [ht] at h
          simp only [if_true, ParseM.purePM_apply, ParseM.pure_apply, PResult.ok.injEq] at h
          exact Or.inr ⟨d, h.1.symm⟩
        · simp only [Bool.not_eq_true] at ht
          rw [ht] at h
          simp only [Bool.false_eq_true, if_false, ParseM.purePM_apply, ParseM.pure_apply,
            PResult.ok.injEq] at h
          exact Or.inl h.1.symm
    · simp only [Bool.not_eq_true] at hb
      rw [hb] at h
      simp only [Bool.false_eq_true, if_false, ParseM.purePM_apply, ParseM.pure_apply, PResult.ok.injEq] at h
      exact Or.inl h.1.symm

theorem subDataPhase_ok (skvs : ObjList) (sk : Value) (st : ParserState) :
    (subDataPhase (Value.obj skvs) sk st).isOk = true := by
  unfold subDataPhase
  simp only [ParseM.bind_apply, pyContains, ParseM.liftE_ok, ParseM.purePM_apply, ParseM.pure_apply,
    PResult.andThen_ok, ParseM.ite_apply]
  by_cases hk : skvs.hasKey "data" = true
  · obtain ⟨v, hv⟩ := ObjList.findV_isSome_of_hasKey skvs _ hk
    simp [hk, pyIndexStr, hv, PResult.isOk]
  · simp only [Bool.not_eq_true] at hk
    simp [hk, PResult.isOk]

theorem subToolUsePhase_master (event sk : Value) (st : ParserState) :
    (monoStep st (subToolUsePhase event sk st).state ∧
      (subToolUsePhase event sk st).state.active_subagent_tools =
        st.active_subagent_tools) ∧
    (∀ evs st2, subToolUsePhase event sk st = .ok evs st2 →
      evs = [] ∨ ∃ n i inpv, evs = [ParsedEvent.currentToolUse n i inpv sk] ∧
        (inpv = Value.null ∨ ∃ k v t, inpv = Value.obj (.cons k v t))) ∧
    (∀ skvs, event = Value.obj skvs → toolUseIdOK skvs = true →
      (sk.truthy = true → sk.hashable = true) →
      (subToolUsePhase event sk st).isOk = true) := by
  unfold subToolUsePhase
  simp only [ParseM.bind_apply]
  cases hx : extract_tool_use_from_event event with
  | error e =>
    simp only [ParseM.liftE_err, ParseM.throw_apply, PResult.andThen_err]
    refine ⟨⟨monoStep_refl st, by trivial⟩, ?_, ?_⟩
    · intro evs st2 h; cases h
    · intro skvs he _ _
      rw [he] at hx
      obtain ⟨r, hr⟩ := extract_tool_use_obj_ok skvs
      rw [hx] at hr
      cases hr
  | ok r =>
    simp only [ParseM.liftE_ok, ParseM.purePM_apply, ParseM.pure_apply, PResult.andThen_ok]
    cases r with
    | none =>
      simp only [ParseM.purePM_apply, ParseM.pure_apply]
      refine ⟨⟨monoStep_refl st, by trivial⟩, ?_, ?_⟩
      · intro evs st2 h
        cases h
        exact Or.inl rfl
      · intro _ _ _ _; rfl
    | some tu =>
      by_cases htu : (Value.obj tu).truthy = true
      · simp only [htu, if_true]
        have h := emit_master tu sk st
        refine ⟨h.1, h.2.1, ?_⟩
        intro skvs he hok hsk
        rw [he] at hx
        apply h.2.2
        · intro hidt
          unfold toolUseIdOK at hok
          rw [hx] at hok
          simp only [htu, if_true] at hok
          rw [Bool.or_eq_true] at hok
          rcases hok with hh | hh
          · rw [hidt] at hh; simp at hh
          · exact hh
        · intro _ hskt
          exact hsk hskt
      · simp only [Bool.not_eq_true] at htu
        simp only [htu, Bool.false_eq_true, if_false, ParseM.purePM_apply, ParseM.pure_apply]
        refine ⟨⟨monoStep_refl st, by trivial⟩, ?_, ?_⟩
        · intro evs st2 h
          cases h
          exact Or.inl rfl
        · intro _ _ _ _; rfl

theorem subToolResultPhase_master (event sk : Value) (st : ParserState) :
    ((subToolResultPhase event sk st).state = st) ∧
    (∀ evs st2, subToolResultPhase event sk st = .ok evs st2 →
      evs = [] ∨ ∃ d n i m, evs = [ParsedEvent.toolResult d n i m sk]) ∧
    (∀ skvs, event = Value.obj skvs → toolResultIdOK skvs = true →
      (subToolResultPhase event sk st).isOk = true) := by
  unfold subToolResultPhase
  simp only [ParseM.bind_apply]
  cases hx : extract_tool_result_from_event event with
  | error e =>
    simp only [ParseM.liftE_err, ParseM.throw_apply, PResult.andThen_err]
    refine ⟨rfl, ?_, ?_⟩
    · intro evs st2 h; cases h
    · intro skvs he _
      rw [he] at hx
      obtain ⟨r, hr⟩ := extract_tool_result_obj_ok skvs
      rw [hx] at hr
      cases hr
  | ok r =>
    simp only [ParseM.liftE_ok, ParseM.purePM_apply, ParseM.pure_apply, PResult.andThen_ok]
    cases r with
    | none =>
      simp only [ParseM.purePM_apply, ParseM.pure_apply]
      refine ⟨rfl, ?_, ?_⟩
      · intro evs st2 h; cases h; exact Or.inl rfl
      · intro _ _ _; rfl
    | some tr =>
      by_cases htr : (Value.obj tr).truthy = true
      · simp only [htr, if_true, ParseM.bind_apply, ParseM.get_apply, PResult.andThen_ok]
        by_cases hh : (tr.getD "toolUseId" (Value.str "")).hashable = true
        · simp only [vdictGetE, hh, if_true, ParseM.liftE_ok, ParseM.purePM_apply, ParseM.pure_apply,
            PResult.andThen_ok]
          refine ⟨rfl, ?_, ?_⟩
          · intro evs st2 h
            cases h
            exact Or.inr ⟨_, _, _, _, rfl⟩
          · intro _ _ _; rfl
        · simp only [Bool.not_eq_true] at hh
          simp only [vdictGetE, hh, Bool.false_eq_true, if_false, ParseM.liftE_err,
            ParseM.throw_apply, PResult.andThen_err]
          refine ⟨rfl, ?_, ?_⟩
          · intro evs st2 h; cases h
          · intro skvs he hok
            rw [he] at hx
            unfold toolResultIdOK at hok
            rw [hx] at hok
            simp only [htr, if_true] at hok
            rw [hok] at hh
            cases hh
      · simp only [Bool.not_eq_true] at htr
        simp only [htr, Bool.false_eq_true, if_false, ParseM.purePM_apply, ParseM.pure_apply]
        refine ⟨rfl, ?_, ?_⟩
        · intro evs st2 h; cases h; exact Or.inl rfl
        · intro _ _ _; rfl

theorem subagentSafe_parts (event sk : Value) (hs : subagentSafe event sk = true) :
    ∃ skvs, event = Value.obj skvs ∧ toolUseIdOK skvs = true ∧ toolResultIdOK skvs = true ∧
      (sk.truthy = true → sk.hashable = true) := by
  unfold subagentSafe at hs
  cases event <;> simp only [Bool.and_eq_true] at hs
  case obj skvs =>
    refine ⟨skvs, rfl, hs.1.1, hs.1.2, fun ht => ?_⟩
    have h2 := hs.2
    rw [Bool.or_eq_true] at h2
    rcases h2 with h | h
    · rw [ht] at h; simp at h
    · exact h
  all_goals cases hs

theorem subparse_master (event sk : Value) (st : ParserState) :
    (monoStep st (parse_subagent_event event sk st).state ∧
      (parse_subagent_event event sk st).state.active_subagent_tools =
        st.active_subagent_tools) ∧
    (∀ evs st2, parse_subagent_event event sk st = .ok evs st2 →
      ∀ ev ∈ evs, ev.isToolStream = false ∧ ctuInputOK ev) ∧
    (subagentSafe event sk = true → (parse_subagent_event event sk st).isOk = true) := by
  unfold parse_subagent_event
  simp only [ParseM.bind_apply]
  cases h1 : subDataPhase event sk st with
  | err e s1 =>
    have hs1 : s1 = st := by
      have := subDataPhase_state event sk st
      rw [h1] at this
      exact this
    subst hs1
    simp only [PResult.andThen_err]
    refine ⟨⟨monoStep_refl s1, by trivial⟩, ?_, ?_⟩
    · intro evs st2 h; cases h
    · intro hs
      obtain ⟨skvs, rfl, _, _, _⟩ := subagentSafe_parts event sk hs
      have := subDataPhase_ok skvs sk s1
      rw [h1] at this
      cases this
  | ok devs s1 =>
    have hs1 : s1 = st := by
      have := subDataPhase_state event sk st
      rw [h1] at this
      exact this
    subst hs1
    simp only [PResult.andThen_ok, ParseM.bind_apply]
    have hm := subToolUsePhase_master event sk s1
    cases h2 : subToolUsePhase event sk s1 with
    | err e s2 =>
      simp only [PResult.andThen_err]
      rw [h2] at hm
      refine ⟨hm.1, ?_, ?_⟩
      · intro evs st2 h; cases h
      · intro hs
        obtain ⟨skvs, he, htu, _, hsk⟩ := subagentSafe_parts event sk hs
        have := hm.2.2 skvs he htu hsk
        cases this
    | ok tevs s2 =>
      rw [h2] at hm
      simp only [PResult.andThen_ok, ParseM.bind_apply]
      have hr := subToolResultPhase_master event sk s2
      cases h3 : subToolResultPhase event sk s2 with
      | err e s3 =>
        rw [h3] at hr
        have hs3 : s3 = s2 := hr.1
        subst hs3
        simp only [PResult.andThen_err]
        refine ⟨⟨hm.1.1, hm.1.2⟩, ?_, ?_⟩
        · intro evs st2 h; cases h
        · intro hs
          obtain ⟨skvs, he, _, htr, _⟩ := subagentSafe_parts event sk hs
          have := hr.2.2 skvs he htr
          cases this
      | ok revs s3 =>
        rw [h3] at hr
        have hs3 : s3 = s2 := hr.1
        subst hs3
        simp only [PResult.andThen_ok, ParseM.purePM_apply, ParseM.pure_apply]
        refine ⟨⟨hm.1.1, hm.1.2⟩, ?_, fun _ => rfl⟩
        intro evs st2 h
        cases h
        intro ev hev
        rw [List.mem_append] at hev
        rcases hev with hev | hev
        · rw [List.mem_append] at hev
          rcases hev with hev | hev
          · rcases subDataPhase_shape event sk s1 devs s1 h1 with hd | ⟨d, hd⟩
            · rw [hd] at hev; cases hev
            · rw [hd] at hev
              rw [List.mem_singleton] at hev
              subst hev
              exact ⟨rfl, not_ctu_inputOK rfl⟩
          · rcases hm.2.1 tevs s3 rfl with ht | ⟨n, i, inpv, ht, hinp⟩
            · rw [ht] at hev; cases hev
            · rw [ht] at hev
              rw [List.mem_singleton] at hev
              subst hev
              refine ⟨rfl, ?_⟩
              intro n' i' inp' s' heq
              cases heq
              exact hinp
        · rcases hr.2.1 revs s3 rfl with hre | ⟨d, n, i, m, hre⟩
          · rw [hre] at hev; cases hev
          · rw [hre] at hev
            rw [List.mem_singleton] at hev
            subst hev
            exact ⟨rfl, not_ctu_inputOK rfl⟩

theorem toolUseSection_master (kvs : ObjList) (acc : List ParsedEvent) (st : ParserState) :
    (monoStep st (toolUseSection (Value.obj kvs) acc st).state ∧
      (toolUseSection (Value.obj kvs) acc st).state.active_subagent_tools =
        st.active_subagent_tools) ∧
    (∀ evs st2, toolUseSection (Value.obj kvs) acc st = .ok evs st2 →
      ∃ extra, evs = acc ++ extra ∧
        (extra = [] ∨ ∃ n i inpv, extra = [ParsedEvent.currentToolUse n i inpv Value.null] ∧
          (inpv = Value.null ∨ ∃ k v t, inpv = Value.obj (.cons k v t)))) ∧
    (toolUseIdOK kvs = true → (toolUseSection (Value.obj kvs) acc st).isOk = true) := by
  unfold toolUseSection
  simp only [ParseM.bind_apply]
  cases hx : extract_tool_use_from_event (Value.obj kvs) with
  | error e =>
    obtain ⟨r, hr⟩ := extract_tool_use_obj_ok kvs
    rw [hx] at hr
    cases hr
  | ok r =>
    simp only [ParseM.liftE_ok, ParseM.purePM_apply, ParseM.pure_apply, PResult.andThen_ok]
    cases r with
    | none =>
      simp only [ParseM.purePM_apply, ParseM.pure_apply]
      refine ⟨⟨monoStep_refl st, by trivial⟩, ?_, fun _ => rfl⟩
      intro evs st2 h
      cases h
      exact ⟨[], by simp⟩
    | some tu =>
      by_cases htu : (Value.obj tu).truthy = true
      · simp only [htu, if_true, ParseM.bind_apply, ParseM.get_apply, PResult.andThen_ok,
          ParseM.ite_apply]
        by_cases hae : st.active_subagent_tools.isEmpty = true
        · simp only [hae, if_true, ParseM.bind_apply]
          have hm := emit_master tu Value.null st
          cases hemit : emit_tool_use_event tu Value.null st with
          | err e s2 =>
            rw [hemit] at hm
            simp only [PResult.andThen_err]
            refine ⟨hm.1, ?_, ?_⟩
            · intro evs st2 h; cases h
            · intro hok
              unfold toolUseIdOK at hok
              rw [hx] at hok
              simp only [htu, if_true] at hok
              have := hm.2.2 (fun hidt => by
                  rw [Bool.or_eq_true] at hok
                  rcases hok with hh | hh
                  · rw [hidt] at hh; simp at hh
                  · exact hh)
                (fun _ hsrc => by simp [Value.truthy] at hsrc)
              cases this
          | ok eevs s2 =>
            rw [hemit] at hm
            simp only [PResult.andThen_ok, ParseM.purePM_apply, ParseM.pure_apply]
            refine ⟨hm.1, ?_, fun _ => rfl⟩
            intro evs st2 h
            cases h
            exact ⟨eevs, rfl, hm.2.1 eevs s2 rfl⟩
        · simp only [hae, Bool.false_eq_true, if_false, ParseM.purePM_apply,
            ParseM.pure_apply]
          refine ⟨⟨monoStep_refl st, by trivial⟩, ?_, fun _ => rfl⟩
          intro evs st2 h
          cases h
          exact ⟨[], by simp⟩
      · simp only [Bool.not_eq_true] at htu
        simp only [htu, Bool.false_eq_true, if_false, ParseM.purePM_apply, ParseM.pure_apply]
        refine ⟨⟨monoStep_refl st, by trivial⟩, ?_, fun _ => rfl⟩
        intro evs st2 h
        cases h
        exact ⟨[], by simp⟩

theorem toolResultSection_master (kvs : ObjList) (acc : List ParsedEvent) (st : ParserState) :
    (monoStep st (toolResultSection (Value.obj kvs) acc st).state ∧
      (∀ x ∈ st.active_subagent_tools,
        x ∈ (toolResultSection (Value.obj kvs) acc st).state.active_subagent_tools ∨
          removalJustified (Value.obj kvs) x)) ∧
    (∀ evs st2, toolResultSection (Value.obj kvs) acc st = .ok evs st2 →
      ∃ extra, evs = acc ++ extra ∧
        (extra = [] ∨ ∃ d n i m, extra = [ParsedEvent.toolResult d n i m Value.null])) ∧
    (toolResultIdOK kvs = true → (toolResultSection (Value.obj kvs) acc st).isOk = true) ∧
    (∀ tr, extract_tool_result_from_event (Value.obj kvs) = .ok (some tr) →
      (Value.obj tr).truthy = true →
      (tr.getD "toolUseId" (Value.str "")).hashable = true →
      (pmemV st.active_subagent_tools (tr.getD "toolUseId" (Value.str "")) = true →
        toolResultSection (Value.obj kvs) acc st = .ok acc
          { st with active_subagent_tools :=
            setDiscard st.active_subagent_tools (tr.getD "toolUseId" (Value.str "")) }) ∧
      (pmemV st.active_subagent_tools (tr.getD "toolUseId" (Value.str "")) = false →
        toolResultSection (Value.obj kvs) acc st = .ok
          (acc ++ [ParsedEvent.toolResult (extract_result_content (Value.obj tr))
            (match st.tool_use_mapping.find?
                (fun kv => kv.1.pyEq (tr.getD "toolUseId" (Value.str ""))) with
              | some kv => kv.2
              | none => Value.str "unknown")
            (tr.getD "toolUseId" (Value.str ""))
            (if (tr.getD "status" (Value.str "")).truthy = true then
              vobj [("status", tr.getD "status" (Value.str ""))]
             else Value.null) Value.null]) st)) := by
  unfold toolResultSection
  simp only [ParseM.bind_apply]
  cases hx : extract_tool_result_from_event (Value.obj kvs) with
  | error e =>
    obtain ⟨r, hr⟩ := extract_tool_result_obj_ok kvs
    rw [hx] at hr
    cases hr
  | ok r =>
    simp only [ParseM.liftE_ok, ParseM.purePM_apply, ParseM.pure_apply, PResult.andThen_ok]
    cases r with
    | none =>
      simp only [ParseM.purePM_apply, ParseM.pure_apply]
      refine ⟨⟨monoStep_refl st, fun x hx2 => Or.inl hx2⟩, ?_, fun _ => rfl, ?_⟩
      · intro evs st2 h
        cases h
        exact ⟨[], by simp⟩
      · intro tr htr
        cases htr
    | some tr =>
      by_cases htr : (Value.obj tr).truthy = true
      · simp only [htr, if_true, ParseM.bind_apply, ParseM.get_apply, PResult.andThen_ok]
        by_cases hh : (tr.getD "toolUseId" (Value.str "")).hashable = true
        · simp only [vdictGetE, hh, if_true, ParseM.liftE_ok, ParseM.purePM_apply,
            ParseM.pure_apply, PResult.andThen_ok, ParseM.bind_apply, setContainsE,
            ParseM.ite_apply]
          by_cases hmem : pmemV st.active_subagent_tools
              (tr.getD "toolUseId" (Value.str "")) = true
          · simp only [hmem, if_true, ParseM.bind_apply, ParseM.get_apply,
              PResult.andThen_ok, ParseM.set_apply, ParseM.purePM_apply, ParseM.pure_apply]
            refine ⟨⟨⟨fun _ h => h, fun _ h => h, fun _ h => h, rfl, rfl, rfl⟩, ?_⟩,
              ?_, fun _ => rfl, ?_⟩
            · intro x hx2
              by_cases hpe : x.pyEq (tr.getD "toolUseId" (Value.str "")) = true
              · exact Or.inr ⟨tr, hx, htr, hpe⟩
              · refine Or.inl ?_
                simp only [PResult.state]
                simp [setDiscard, List.mem_filter, hx2, hpe]
            · intro evs st2 h
              cases h
              exact ⟨[], by simp⟩
            · intro tr2 htr2
              cases htr2
              intro _ _
              exact ⟨fun _ => rfl, fun hne => by rw [hmem] at hne; cases hne⟩
          · simp only [Bool.not_eq_true] at hmem
            simp only [hmem, Bool.false_eq_true, if_false, ParseM.purePM_apply,
              ParseM.pure_apply]
            refine ⟨⟨monoStep_refl st, fun x hx2 => Or.inl hx2⟩, ?_, fun _ => rfl, ?_⟩
            · intro evs st2 h
              cases h
              exact ⟨_, rfl, Or.inr ⟨_, _, _, _, rfl⟩⟩
            · intro tr2 htr2
              cases htr2
              intro _ _
              exact ⟨fun hm2 => (by rw [hmem] at hm2; cases hm2), fun _ => rfl⟩
        · simp only [Bool.not_eq_true] at hh
          simp only [vdictGetE, hh, Bool.false_eq_true, if_false, ParseM.liftE_err,
            ParseM.throw_apply, PResult.andThen_err]
          refine ⟨⟨monoStep_refl st, fun x hx2 => Or.inl hx2⟩, ?_, ?_, ?_⟩
          · intro evs st2 h; cases h
          · intro hok
            unfold toolResultIdOK at hok
            rw [hx] at hok
            simp only [htr, if_true] at hok
            rw [hok] at hh
            cases hh
          · intro tr2 htr2
            cases htr2
            intro _ hh2
            rw [hh2] at hh
            cases hh
      · simp only [Bool.not_eq_true] at htr
        simp only [htr, Bool.false_eq_true, if_false, ParseM.purePM_apply, ParseM.pure_apply]
        refine ⟨⟨monoStep_refl st, fun x hx2 => Or.inl hx2⟩, ?_, fun _ => rfl, ?_⟩
        · intro evs st2 h
          cases h
          exact ⟨[], by simp⟩
        · intro tr2 htr2
          cases htr2
          intro htr3
          rw [htr3] at htr
          cases htr

theorem markActive_master (tool_use : Value) (st : ParserState) :
    (monoStep st (markActiveSubagent tool_use st).state ∧
      (∀ x ∈ st.active_subagent_tools,
        x ∈ (markActiveSubagent tool_use st).state.active_subagent_tools)) ∧
    ((∀ tu, tool_use = Value.obj tu → (tu.getD "toolUseId" Value.null).truthy = true →
        (tu.getD "toolUseId" Value.null).hashable = true) →
      (markActiveSubagent tool_use st).isOk = true) ∧
    (∀ tu, tool_use = Value.obj tu → (tu.getD "toolUseId" Value.null).truthy = true →
      (tu.getD "toolUseId" Value.null).hashable = true →
      markActiveSubagent tool_use st = .ok ()
        { st with active_subagent_tools :=
          if pmemV st.active_subagent_tools (tu.getD "toolUseId" Value.null) then
            st.active_subagent_tools
          else st.active_subagent_tools ++ [tu.getD "toolUseId" Value.null] }) := by
  unfold markActiveSubagent
  cases tool_use with
  | obj tu =>
    by_cases ht : (tu.getD "toolUseId" Value.null).truthy = true
    · simp only [ht, if_true, ParseM.bind_apply, ParseM.get_apply, PResult.andThen_ok]
      by_cases hh : (tu.getD "toolUseId" Value.null).hashable = true
      · simp only [setAddE, hh, if_true, ParseM.liftE_ok, ParseM.purePM_apply,
          ParseM.pure_apply, PResult.andThen_ok, ParseM.set_apply, PResult.state]
        refine ⟨⟨⟨fun _ h => h, fun _ h => h, fun _ h => h, rfl, rfl, rfl⟩, ?_⟩,
          fun _ => rfl, ?_⟩
        · intro x hx
          split
          · exact hx
          · exact List.mem_append_left _ hx
        · intro tu2 he _ _
          cases he
          rfl
      · simp only [Bool.not_eq_true] at hh
        simp only [setAddE, hh, Bool.false_eq_true, if_false, ParseM.liftE_err,
          ParseM.throw_apply, PResult.andThen_err, PResult.state]
        refine ⟨⟨monoStep_refl st, fun x hx => hx⟩, ?_, ?_⟩
        · intro hcond
          have := hcond tu rfl ht
          rw [this] at hh
          cases hh
        · intro tu2 he _ hh2
          cases he
          rw [hh2] at hh
          cases hh
    · simp only [Bool.not_eq_true] at ht
      simp only [ht, Bool.false_eq_true, if_false, ParseM.purePM_apply, ParseM.pure_apply,
        PResult.state]
      refine ⟨⟨monoStep_refl st, fun x hx => hx⟩, fun _ => rfl, ?_⟩
      intro tu2 he ht2
      cases he
      rw [ht2] at ht
      cases ht
  | null =>
    exact ⟨⟨monoStep_refl st, fun x hx => hx⟩, fun _ => rfl, fun tu2 he => by cases he⟩
  | bool b =>
    exact ⟨⟨monoStep_refl st, fun x hx => hx⟩, fun _ => rfl, fun tu2 he => by cases he⟩
  | int n =>
    exact ⟨⟨monoStep_refl st, fun x hx => hx⟩, fun _ => rfl, fun tu2 he => by cases he⟩
  | str s2 =>
    exact ⟨⟨monoStep_refl st, fun x hx => hx⟩, fun _ => rfl, fun tu2 he => by cases he⟩
  | list xs =>
    exact ⟨⟨monoStep_refl st, fun x hx => hx⟩, fun _ => rfl, fun tu2 he => by cases he⟩

theorem dataEvents_shape (kvs : ObjList) :
    dataEvents kvs = [] ∨ ∃ d, dataEvents kvs = [ParsedEvent.text d Value.null] := by
  unfold dataEvents
  by_cases h1 : kvs.hasKey "data" = true
  · simp only [h1, if_true]
    by_cases h2 : (kvs.getD "data" Value.null).truthy = true
    · simp only [h2, if_true]
      exact Or.inr ⟨_, rfl⟩
    · simp only [Bool.not_eq_true] at h2
      simp only [h2, Bool.false_eq_true, if_false]
      exact Or.inl (by trivial)
  · simp only [Bool.not_eq_true] at h1
    simp only [h1, Bool.false_eq_true, if_false]
    exact Or.inl (by trivial)

theorem reasoningEvents_shape (kvs : ObjList) :
    reasoningEvents kvs = [] ∨ ∃ d m, reasoningEvents kvs = [ParsedEvent.reasoning d m] := by
  unfold reasoningEvents
  by_cases h1 : kvs.hasKey "reasoningText" = true
  · simp only [h1, if_true]
    by_cases h2 : (kvs.getD "reasoningText" Value.null).truthy = true
    · simp only [h2, if_true]
      exact Or.inr ⟨_, _, rfl⟩
    · simp only [Bool.not_eq_true] at h2
      simp only [h2, Bool.false_eq_true, if_false]
      exact Or.inl (by trivial)
  · simp only [Bool.not_eq_true] at h1
    simp only [h1, Bool.false_eq_true, if_false]
    exact Or.inl (by trivial)

theorem lifecycleEvents_shape (kvs : ObjList) :
    ∀ ev ∈ lifecycleEvents kvs, ∃ lt m f r, ev = ParsedEvent.lifecycle lt m f r := by
  unfold lifecycleEvents
  intro ev hev
  rw [List.mem_append] at hev
  rcases hev with hev | hev
  · rw [List.mem_append] at hev
    rcases hev with hev | hev
    · rw [List.mem_append] at hev
      rcases hev with hev | hev <;>
        · split at hev
          · rw [List.mem_singleton] at hev; exact ⟨_, _, _, _, hev⟩
          · cases hev
    · split at hev
      · rw [List.mem_singleton] at hev; exact ⟨_, _, _, _, hev⟩
      · cases hev
  · split at hev
    · rw [List.mem_singleton] at hev; exact ⟨_, _, _, _, hev⟩
    · cases hev

theorem parseMainRest_master (kvs : ObjList) (acc : List ParsedEvent) (st : ParserState) :
    (monoStep st (parseMainRest kvs acc st).state ∧
      (∀ x ∈ st.active_subagent_tools,
        x ∈ (parseMainRest kvs acc st).state.active_subagent_tools ∨
          removalJustified (Value.obj kvs) x)) ∧
    (∀ evs st2, parseMainRest kvs acc st = .ok evs st2 →
      (∀ ev ∈ acc, ctuInputOK ev) → ∀ ev ∈ evs, ctuInputOK ev) ∧
    (∀ evs st2, parseMainRest kvs acc st = .ok evs st2 →
      evs.filter ParsedEvent.isText = (acc ++ dataEvents kvs).filter ParsedEvent.isText) ∧
    (toolUseIdOK kvs = true → toolResultIdOK kvs = true →
      (parseMainRest kvs acc st).isOk = true) := by
  unfold parseMainRest
  simp only [ParseM.bind_apply]
  have tum := toolUseSection_master kvs (acc ++ dataEvents kvs) st
  cases h2 : toolUseSection (Value.obj kvs) (acc ++ dataEvents kvs) st with
  | err e s2 =>
    rw [h2] at tum
    simp only [PResult.andThen_err]
    refine ⟨⟨tum.1.1, ?_⟩, ?_, ?_, ?_⟩
    · intro x hx
      refine Or.inl ?_
      rw [tum.1.2]
      exact hx
    · intro evs st2 h; cases h
    · intro evs st2 h; cases h
    · intro htu _
      have := tum.2.2 htu
      cases this
  | ok evs2 s2 =>
    rw [h2] at tum
    simp only [PResult.andThen_ok, ParseM.bind_apply]
    have trm := toolResultSection_master kvs evs2 s2
    cases h3 : toolResultSection (Value.obj kvs) evs2 s2 with
    | err e s3 =>
      rw [h3] at trm
      simp only [PResult.andThen_err]
      refine ⟨⟨monoStep_trans tum.1.1 trm.1.1, ?_⟩, ?_, ?_, ?_⟩
      · intro x hx
        have hteq := tum.1.2
        simp only [PResult.state] at hteq
        have hx2 : x ∈ s2.active_subagent_tools := by rw [hteq]; exact hx
        exact trm.1.2 x hx2
      · intro evs st2 h; cases h
      · intro evs st2 h; cases h
      · intro _ htr
        have := trm.2.2.1 htr
        cases this
    | ok evs3 s3 =>
      rw [h3] at trm
      simp only [PResult.andThen_ok, ParseM.purePM_apply, ParseM.pure_apply]
      obtain ⟨extra1, hevs2, hextra1⟩ := tum.2.1 evs2 s2 rfl
      obtain ⟨extra2, hevs3, hextra2⟩ := trm.2.1 evs3 s3 rfl
      refine ⟨⟨monoStep_trans tum.1.1 trm.1.1, ?_⟩, ?_, ?_, fun _ _ => rfl⟩
      · intro x hx
        have hteq := tum.1.2
        simp only [PResult.state] at hteq
        have hx2 : x ∈ s2.active_subagent_tools := by rw [hteq]; exact hx
        exact trm.1.2 x hx2
      · intro evs st2 h hacc
        cases h
        intro ev hev
        rw [List.mem_append] at hev
        rcases hev with hev | hev
        · rw [hevs3, List.mem_append] at hev
          rcases hev with hev | hev
          · rw [hevs2, List.mem_append] at hev
            rcases hev with hev | hev
            · rw [List.mem_append] at hev
              rcases hev with hev | hev
              · exact hacc ev hev
              · rcases dataEvents_shape kvs with hd | ⟨d, hd⟩
                · rw [hd] at hev; cases hev
                · rw [hd, List.mem_singleton] at hev
                  subst hev
                  exact not_ctu_inputOK rfl
            · rcases hextra1 with he | ⟨n, i, inpv, he, hinp⟩
              · rw [he] at hev; cases hev
              · rw [he, List.mem_singleton] at hev
                subst hev
                intro n' i' inp' s' heq
                cases heq
                exact hinp
          · rcases hextra2 with he | ⟨d, n, i, m, he⟩
            · rw [he] at hev; cases hev
            · rw [he, List.mem_singleton] at hev
              subst hev
              exact not_ctu_inputOK rfl
        · rcases reasoningEvents_shape kvs with hr | ⟨d, m2, hr⟩
          · rw [hr] at hev; cases hev
          · rw [hr, List.mem_singleton] at hev
            subst hev
            exact not_ctu_inputOK rfl
      · intro evs st2 h
        cases h
        rw [List.filter_append, hevs3, List.filter_append, hevs2, List.filter_append]
        have hf1 : extra1.filter ParsedEvent.isText = [] := by
          rcases hextra1 with he | ⟨n, i, inpv, he, _⟩ <;>
            simp [he, ParsedEvent.isText]
        have hf2 : extra2.filter ParsedEvent.isText = [] := by
          rcases hextra2 with he | ⟨d, n, i, m, he⟩ <;>
            simp [he, ParsedEvent.isText]
        have hf3 : (reasoningEvents kvs).filter ParsedEvent.isText = [] := by
          rcases reasoningEvents_shape kvs with hr | ⟨d, m2, hr⟩ <;>
            simp [hr, ParsedEvent.isText]
        rw [hf1, hf2, hf3]
        simp

theorem orchestrationEvents_shape (kvs : ObjList) (l : List ParsedEvent)
    (h : orchestrationEvents kvs = some l) :
    ∀ ev ∈ l, ev.isCurrentToolUse = false ∧ ev.isText = false ∧ ev.isToolResult = false := by
  unfold orchestrationEvents at h
  dsimp only at h
  by_cases c0 : (kvs.getD "type" Value.null).truthy = true
  · simp only [c0, if_true] at h
    by_cases c1 : (kvs.getD "type" Value.null).pyEq (Value.str "multiagent_node_start") = true
    · simp only [c1, if_true] at h
      cases h
      intro ev hev
      rw [List.mem_singleton] at hev
      subst hev
      exact ⟨rfl, rfl, rfl⟩
    · simp only [Bool.not_eq_true] at c1
      simp only [c1, Bool.false_eq_true, if_false] at h
      by_cases c2 : (kvs.getD "type" Value.null).pyEq (Value.str "multiagent_node_stream") = true
      · simp only [c2, if_true] at h
        cases h
        intro ev hev
        rw [List.mem_singleton] at hev
        subst hev
        exact ⟨rfl, rfl, rfl⟩
      · simp only [Bool.not_eq_true] at c2
        simp only [c2, Bool.false_eq_true, if_false] at h
        by_cases c3 : (kvs.getD "type" Value.null).pyEq (Value.str "multiagent_node_stop") = true
        · simp only [c3, if_true] at h
          cases h
          intro ev hev
          rw [List.mem_singleton] at hev
          subst hev
          exact ⟨rfl, rfl, rfl⟩
        · simp only [Bool.not_eq_true] at c3
          simp only [c3, Bool.false_eq_true, if_false] at h
          by_cases c4 : (kvs.getD "type" Value.null).pyEq (Value.str "multiagent_handoff") = true
          · simp only [c4, if_true] at h
            cases h
            intro ev hev
            rw [List.mem_singleton] at hev
            subst hev
            exact ⟨rfl, rfl, rfl⟩
          · simp only [Bool.not_eq_true] at c4
            simp only [c4, Bool.false_eq_true, if_false] at h
            by_cases c5 : (kvs.getD "type" Value.null).pyEq (Value.str "multiagent_result") = true
            · simp only [c5, if_true] at h
              cases h
              intro ev hev
              rw [List.mem_singleton] at hev
              subst hev
              exact ⟨rfl, rfl, rfl⟩
            · simp only [Bool.not_eq_true] at c5
              simp only [c5, Bool.false_eq_true, if_false] at h
              cases h
  · simp only [Bool.not_eq_true] at c0
    simp only [c0, Bool.false_eq_true, if_false] at h
    cases h

theorem lifecycleEvents_ctuOK (kvs : ObjList) :
    ∀ ev ∈ lifecycleEvents kvs, ctuInputOK ev := by
  intro ev hev
  obtain ⟨lt, m, f, r, h⟩ := lifecycleEvents_shape kvs ev hev
  rw [h]
  exact not_ctu_inputOK rfl

theorem relayMarkOK_gives (ts : ObjList) (h : relayMarkOK ts = true) :
    ∀ tu, ts.getD "tool_use" Value.null = Value.obj tu →
      (tu.getD "toolUseId" Value.null).truthy = true →
      (tu.getD "toolUseId" Value.null).hashable = true := by
  intro tu he ht
  unfold relayMarkOK at h
  unfold ObjList.getD at he
  cases hf : ts.findV "tool_use" with
  | none => rw [hf] at he; cases he
  | some v =>
    rw [hf] at he h
    simp only at he
    subst he
    rw [Bool.or_eq_true] at h
    rcases h with h | h
    · rw [ht] at h; simp at h
    · exact h

theorem ptsb_relay_eq (kvs ts : ObjList) (acc : List ParsedEvent) (sub sk : Value)
    (h : relayData (ts.getD "data" Value.null) = some (sub, sk)) :
    parseToolStreamBranch kvs ts acc =
      Bind.bind (markActiveSubagent (ts.getD "tool_use" Value.null))
        (fun _ => Bind.bind (parse_subagent_event sub sk)
          (fun sub_parsed => Pure.pure (acc ++ sub_parsed))) := by
  simp only [parseToolStreamBranch, h]

theorem ptsb_stream_eq (kvs ts : ObjList) (acc : List ParsedEvent)
    (h : relayData (ts.getD "data" Value.null) = none)
    (hc : (ts.getD "tool_use" Value.null).truthy = true ∨
      ts.getD "data" Value.null ≠ Value.null) :
    parseToolStreamBranch kvs ts acc = Pure.pure
      (acc ++ [ParsedEvent.toolStream (asDict (ts.getD "tool_use" Value.null))
        (ts.getD "data" Value.null)]) := by
  simp only [parseToolStreamBranch, h]
  rw [if_pos hc]

theorem ptsb_fall_eq (kvs ts : ObjList) (acc : List ParsedEvent)
    (h : relayData (ts.getD "data" Value.null) = none)
    (hc : ¬((ts.getD "tool_use" Value.null).truthy = true ∨
      ts.getD "data" Value.null ≠ Value.null)) :
    parseToolStreamBranch kvs ts acc = parseMainRest kvs acc := by
  simp only [parseToolStreamBranch, h]
  rw [if_neg hc]

theorem parseToolStreamBranch_master (kvs ts : ObjList) (acc : List ParsedEvent)
    (st : ParserState) :
    (monoStep st (parseToolStreamBranch kvs ts acc st).state ∧
      (∀ x ∈ st.active_subagent_tools,
        x ∈ (parseToolStreamBranch kvs ts acc st).state.active_subagent_tools ∨
          removalJustified (Value.obj kvs) x)) ∧
    (∀ evs st2, parseToolStreamBranch kvs ts acc st = .ok evs st2 →
      (∀ ev ∈ acc, ctuInputOK ev) → ∀ ev ∈ evs, ctuInputOK ev) ∧
    (parseSafeStreamBranch kvs ts = true →
      (parseToolStreamBranch kvs ts acc st).isOk = true) := by
  cases hrel : relayData (ts.getD "data" Value.null) with
  | some p =>
    obtain ⟨sub, sk⟩ := p
    rw [ptsb_relay_eq kvs ts acc sub sk hrel]
    simp only [ParseM.bind_apply]
    have mam := markActive_master (ts.getD "tool_use" Value.null) st
    cases hma : markActiveSubagent (ts.getD "tool_use" Value.null) st with
    | err e s1 =>
      rw [hma] at mam
      simp only [PResult.andThen_err]
      refine ⟨⟨mam.1.1, fun x hx => Or.inl (mam.1.2 x hx)⟩, ?_, ?_⟩
      · intro evs st2 h; cases h
      · intro hs
        unfold parseSafeStreamBranch at hs
        rw [hrel] at hs
        rw [Bool.and_eq_true] at hs
        have := mam.2.1 (relayMarkOK_gives ts hs.1)
        cases this
    | ok u s1 =>
      rw [hma] at mam
      simp only [PResult.andThen_ok, ParseM.bind_apply]
      have spm := subparse_master sub sk s1
      cases hsp : parse_subagent_event sub sk s1 with
      | err e s2 =>
        rw [hsp] at spm
        simp only [PResult.andThen_err]
        refine ⟨⟨monoStep_trans mam.1.1 spm.1.1, ?_⟩, ?_, ?_⟩
        · intro x hx
          refine Or.inl ?_
          have h1 := mam.1.2 x hx
          simp only [PResult.state] at h1
          have h2 := spm.1.2
          simp only [PResult.state] at h2
          simp only [PResult.state]
          rw [h2]
          exact h1
        · intro evs st2 h; cases h
        · intro hs
          unfold parseSafeStreamBranch at hs
          rw [hrel] at hs
          rw [Bool.and_eq_true] at hs
          have := spm.2.2 hs.2
          cases this
      | ok sevs s2 =>
        rw [hsp] at spm
        simp only [PResult.andThen_ok, ParseM.purePM_apply, ParseM.pure_apply]
        refine ⟨⟨monoStep_trans mam.1.1 spm.1.1, ?_⟩, ?_, fun _ => rfl⟩
        · intro x hx
          refine Or.inl ?_
          have h1 := mam.1.2 x hx
          simp only [PResult.state] at h1
          have h2 := spm.1.2
          simp only [PResult.state] at h2
          simp only [PResult.state]
          rw [h2]
          exact h1
        · intro evs st2 h hacc
          cases h
          intro ev hev
          rw [List.mem_append] at hev
          rcases hev with hev | hev
          · exact hacc ev hev
          · exact (spm.2.1 sevs s2 rfl ev hev).2
  | none =>
    by_cases hcond : (ts.getD "tool_use" Value.null).truthy = true ∨
        ts.getD "data" Value.null ≠ Value.null
    · rw [ptsb_stream_eq kvs ts acc hrel hcond]
      simp only [ParseM.purePM_apply, ParseM.pure_apply, PResult.state]
      refine ⟨⟨monoStep_refl st, fun x hx => Or.inl hx⟩, ?_, fun _ => rfl⟩
      intro evs st2 h hacc
      cases h
      intro ev hev
      rw [List.mem_append] at hev
      rcases hev with hev | hev
      · exact hacc ev hev
      · rw [List.mem_singleton] at hev
        subst hev
        exact not_ctu_inputOK rfl
    · rw [ptsb_fall_eq kvs ts acc hrel hcond]
      have pmm := parseMainRest_master kvs acc st
      refine ⟨pmm.1, ?_, ?_⟩
      · intro evs st2 h hacc
        exact pmm.2.1 evs st2 h hacc
      · intro hs
        unfold parseSafeStreamBranch at hs
        rw [hrel] at hs
        simp only [hcond, if_false] at hs
        rw [Bool.and_eq_true] at hs
        exact pmm.2.2.2 hs.1 hs.2

theorem pno_stream_eq (kvs ts : ObjList)
    (h : kvs.getD "tool_stream_event" (vobj []) = Value.obj ts)
    (ht : (Value.obj ts).truthy = true) :
    parseNonOrchestration kvs = parseToolStreamBranch kvs ts (lifecycleEvents kvs) := by
  simp only [parseNonOrchestration, h, ht, if_true]

theorem pno_throw_eq (kvs : ObjList) (v : Value)
    (h : kvs.getD "tool_stream_event" (vobj []) = v)
    (ht : v.truthy = true) (hno : ∀ ts, v ≠ Value.obj ts) :
    parseNonOrchestration kvs = ParseM.throw PyError.attributeError := by
  cases v with
  | obj ts => exact absurd rfl (hno ts)
  | null => simp only [parseNonOrchestration, h, ht, if_true]
  | bool b => simp only [parseNonOrchestration, h, ht, if_true]
  | int n => simp only [parseNonOrchestration, h, ht, if_true]
  | str s => simp only [parseNonOrchestration, h, ht, if_true]
  | list xs => simp only [parseNonOrchestration, h, ht, if_true]

theorem pno_main_eq (kvs : ObjList)
    (ht : (kvs.getD "tool_stream_event" (vobj [])).truthy = false) :
    parseNonOrchestration kvs = parseMainRest kvs (lifecycleEvents kvs) := by
  simp only [parseNonOrchestration, ht, Bool.false_eq_true, if_false]

theorem parseNonOrchestration_master (kvs : ObjList) (st : ParserState) :
    (monoStep st (parseNonOrchestration kvs st).state ∧
      (∀ x ∈ st.active_subagent_tools,
        x ∈ (parseNonOrchestration kvs st).state.active_subagent_tools ∨
          removalJustified (Value.obj kvs) x)) ∧
    (∀ evs st2, parseNonOrchestration kvs st = .ok evs st2 → ∀ ev ∈ evs, ctuInputOK ev) ∧
    ((if (kvs.getD "tool_stream_event" (vobj [])).truthy = true then
        (match kvs.getD "tool_stream_event" (vobj []) with
          | Value.obj tskvs => parseSafeStreamBranch kvs tskvs
          | _ => false)
      else toolUseIdOK kvs && toolResultIdOK kvs) = true →
      (parseNonOrchestration kvs st).isOk = true) := by
  by_cases ht : (kvs.getD "tool_stream_event" (vobj [])).truthy = true
  · cases hv : kvs.getD "tool_stream_event" (vobj []) with
    | obj ts =>
      rw [hv] at ht
      rw [pno_stream_eq kvs ts hv ht]
      have h := parseToolStreamBranch_master kvs ts (lifecycleEvents kvs) st
      refine ⟨h.1, ?_, ?_⟩
      · intro evs st2 h2
        exact h.2.1 evs st2 h2 (lifecycleEvents_ctuOK kvs)
      · intro hs
        simp only [ht, if_true] at hs
        exact h.2.2 hs
    | null =>
      rw [hv] at ht
      simp [Value.truthy] at ht
    | bool b =>
      rw [hv] at ht
      rw [pno_throw_eq kvs (Value.bool b) hv ht (fun ts h2 => by cases h2)]
      refine ⟨⟨monoStep_refl st, fun x hx => Or.inl hx⟩, ?_, ?_⟩
      · intro evs st2 h2; cases h2
      · intro hs
        simp only [ht, if_true] at hs
        cases hs
    | int n =>
      rw [hv] at ht
      rw [pno_throw_eq kvs (Value.int n) hv ht (fun ts h2 => by cases h2)]
      refine ⟨⟨monoStep_refl st, fun x hx => Or.inl hx⟩, ?_, ?_⟩
      · intro evs st2 h2; cases h2
      · intro hs
        simp only [ht, if_true] at hs
        cases hs
    | str s2 =>
      rw [hv] at ht
      rw [pno_throw_eq kvs (Value.str s2) hv ht (fun ts h2 => by cases h2)]
      refine ⟨⟨monoStep_refl st, fun x hx => Or.inl hx⟩, ?_, ?_⟩
      · intro evs st2 h2; cases h2
      · intro hs
        simp only [ht, if_true] at hs
        cases hs
    | list xs =>
      rw [hv] at ht
      rw [pno_throw_eq kvs (Value.list xs) hv ht (fun ts h2 => by cases h2)]
      refine ⟨⟨monoStep_refl st, fun x hx => Or.inl hx⟩, ?_, ?_⟩
      · intro evs st2 h2; cases h2
      · intro hs
        simp only [ht, if_true] at hs
        cases hs
  · simp only [Bool.not_eq_true] at ht
    rw [pno_main_eq kvs ht]
    have pmm := parseMainRest_master kvs (lifecycleEvents kvs) st
    refine ⟨pmm.1, ?_, ?_⟩
    · intro evs st2 h2
      exact pmm.2.1 evs st2 h2 (lifecycleEvents_ctuOK kvs)
    · intro hs
      rw [ht] at hs
      simp only [Bool.false_eq_true, if_false] at hs
      rw [Bool.and_eq_true] at hs
      exact pmm.2.2.2 hs.1 hs.2

theorem parseObj_orch_eq (kvs : ObjList) (evs0 : List ParsedEvent)
    (h : orchestrationEvents kvs = some evs0) : parseObj kvs = Pure.pure evs0 := by
  unfold parseObj
  rw [h]

theorem parseObj_none_eq (kvs : ObjList) (h : orchestrationEvents kvs = none) :
    parseObj kvs = parseNonOrchestration kvs := by
  unfold parseObj
  rw [h]

theorem parse_master (event : Value) (st : ParserState) :
    (monoStep st (parse event st).state ∧
      (∀ x ∈ st.active_subagent_tools,
        x ∈ (parse event st).state.active_subagent_tools ∨ removalJustified event x)) ∧
    (∀ evs st2, parse event st = .ok evs st2 → ∀ ev ∈ evs, ctuInputOK ev) ∧
    (parseSafe event = true → (parse event st).isOk = true) := by
  cases event with
  | obj kvs =>
    have hp : parse (Value.obj kvs) = parseObj kvs := rfl
    rw [hp]
    cases horch : orchestrationEvents kvs with
    | some evs0 =>
      rw [parseObj_orch_eq kvs evs0 horch]
      simp only [ParseM.purePM_apply, ParseM.pure_apply, PResult.state]
      refine ⟨⟨monoStep_refl st, fun x hx => Or.inl hx⟩, ?_, fun _ => rfl⟩
      intro evs st2 h
      cases h
      intro ev hev
      exact not_ctu_inputOK (orchestrationEvents_shape kvs evs0 horch ev hev).1
    | none =>
      rw [parseObj_none_eq kvs horch]
      have h := parseNonOrchestration_master kvs st
      refine ⟨h.1, h.2.1, ?_⟩
      intro hs
      apply h.2.2
      simp only [parseSafe, horch] at hs
      exact hs
  | null =>
    refine ⟨⟨monoStep_refl st, fun x hx => Or.inl hx⟩, ?_, fun _ => rfl⟩
    intro evs st2 h
    cases h
    intro ev hev
    cases hev
  | bool b =>
    refine ⟨⟨monoStep_refl st, fun x hx => Or.inl hx⟩, ?_, fun _ => rfl⟩
    intro evs st2 h
    cases h
    intro ev hev
    cases hev
  | int n =>
    refine ⟨⟨monoStep_refl st, fun x hx => Or.inl hx⟩, ?_, fun _ => rfl⟩
    intro evs st2 h
    cases h
    intro ev hev
    cases hev
  | str s2 =>
    refine ⟨⟨monoStep_refl st, fun x hx => Or.inl hx⟩, ?_, fun _ => rfl⟩
    intro evs st2 h
    cases h
    intro ev hev
    cases hev
  | list xs =>
    refine ⟨⟨monoStep_refl st, fun x hx => Or.inl hx⟩, ?_, fun _ => rfl⟩
    intro evs st2 h
    cases h
    intro ev hev
    cases hev

/-- Claim C3 (confirmed): feeding a fresh parser three top-level tool-use
events with the same tool-call id and inputs `{}`, `{"a":1}` and
`{"a":1,"b":2}`, in that order, produces one announcement event for the
first (its empty input snapshot surfaced as `None`) and one update event for
each of the other two, each carrying the full accumulated input snapshot;
the state records the growing snapshot under the plain id key. -/
theorem parse_accumulating_inputs_chain_C3 :
    (parse (vobj [("toolUse", vobj [("toolUseId", .str "t1"), ("name", .str "calc"),
        ("input", vobj [])])]) initialState =
      .ok [ParsedEvent.currentToolUse (.str "calc") (.str "t1") Value.null Value.null]
        { initialState with
            displayed_tool_calls := [.str "t1"]
            tool_use_mapping := [(.str "t1", .str "calc")]
            last_tool_input := [(ToolKey.plain (.str "t1"), vobj [])] }) ∧
    (parse (vobj [("toolUse", vobj [("toolUseId", .str "t1"), ("name", .str "calc"),
        ("input", vobj [("a", .int 1)])])])
        { initialState with
            displayed_tool_calls := [.str "t1"]
            tool_use_mapping := [(.str "t1", .str "calc")]
            last_tool_input := [(ToolKey.plain (.str "t1"), vobj [])] } =
      .ok [ParsedEvent.currentToolUse (.str "calc") (.str "t1") (vobj [("a", .int 1)])
          Value.null]
        { initialState with
            displayed_tool_calls := [.str "t1"]
            tool_use_mapping := [(.str "t1", .str "calc")]
            last_tool_input := [(ToolKey.plain (.str "t1"), vobj [("a", .int 1)])] }) ∧
    (parse (vobj [("toolUse", vobj [("toolUseId", .str "t1"), ("name", .str "calc"),
        ("input", vobj [("a", .int 1), ("b", .int 2)])])])
        { initialState with
            displayed_tool_calls := [.str "t1"]
            tool_use_mapping := [(.str "t1", .str "calc")]
            last_tool_input := [(ToolKey.plain (.str "t1"), vobj [("a", .int 1)])] } =
      .ok [ParsedEvent.currentToolUse (.str "calc") (.str "t1")
          (vobj [("a", .int 1), ("b", .int 2)]) Value.null]
        { initialState with
            displayed_tool_calls := [.str "t1"]
            tool_use_mapping := [(.str "t1", .str "calc")]
            last_tool_input :=
              [(ToolKey.plain (.str "t1"), vobj [("a", .int 1), ("b", .int 2)])] }) := by
  refine ⟨by decide, by decide, by decide⟩

/-- Claim C1 (counterexample): `parse` does raise on some malformed input.
The event `\x7b"tool_stream_event": "x"\x7d` makes parser.py line 266 call
`.get` on a string, an `AttributeError`, refuting the claim that `parse`
never raises on any input. -/
theorem parse_raises_on_string_tool_stream_C1 :
    parse (vobj [("tool_stream_event", .str "x")]) initialState =
      .err PyError.attributeError initialState := by decide

/-- Claim C9 (counterexample): a mapping in which the key `data` is present
but bound to the empty (falsy) string yields no `TextEvent` at all — the
truthiness guard of parser.py line 298 skips it — refuting the claim for
every mapping in which `data` is merely present. -/
theorem parse_empty_data_emits_nothing_C9 :
    parse (vobj [("data", .str "")]) initialState = .ok [] initialState := by decide

theorem PResult.exists_ok_of_isOk {α : Type} {x : PResult α} (h : x.isOk = true) :
    ∃ a s, x = .ok a s := by
  cases x with
  | ok a s => exact ⟨a, s, rfl⟩
  | err e s => simp [PResult.isOk] at h

/-- Claim C1 (amended): on every input inside the `parseSafe` boundary — in
particular any raw event whose truthy `tool_stream_event` value is a dict,
whose relayed inner event is a dict, and whose truthy tool-call ids are
hashable — `parse` returns a list instead of raising; a rule whose expected
keys are missing or mistyped contributes no events for that rule.  Outside
the boundary it can raise (see the counterexample). -/
theorem parse_safe_inputs_return_C1 (event : Value) (st : ParserState)
    (h : parseSafe event = true) : (parse event st).isOk = true :=
  (parse_master event st).2.2 h

theorem parse_safe_inputs_return_C1_witness :
    parseSafe (vobj [("toolUse", Value.str "oops"), ("data", Value.int 0)]) = true ∧
    (parse (vobj [("toolUse", Value.str "oops"), ("data", Value.int 0)])
      initialState).isOk = true :=
  ⟨by decide, parse_safe_inputs_return_C1 _ initialState (by decide)⟩

/-- Claim C7 (confirmed): one `parse` call never drops a displayed tool-call
id, a `tool_use_mapping` key or a `last_tool_input` key and never touches the
processed-id sets (`monoStep`); an id leaves `active_subagent_tools` only
when the event carries a truthy tool result with that very id
(`removalJustified`); and `reset` returns the cleared initial state. -/
theorem parse_state_monotone_C7 (event : Value) (st : ParserState) :
    monoStep st (parse event st).state ∧
    (∀ x ∈ st.active_subagent_tools,
      x ∈ (parse event st).state.active_subagent_tools ∨ removalJustified event x) ∧
    reset st = initialState :=
  ⟨(parse_master event st).1.1, (parse_master event st).1.2, rfl⟩

/-- Claim C10 (confirmed): every `CurrentToolUseEvent` in a successful
`parse` result — main-agent or sub-agent path — carries `tool_input` equal to
`None` or to a non-empty dict; an empty or non-dict accumulated input is
surfaced as `None`. -/
theorem parse_ctu_input_none_or_nonempty_C10 (event : Value) (st st2 : ParserState)
    (evs : List ParsedEvent) (h : parse event st = .ok evs st2) :
    ∀ ev ∈ evs, ctuInputOK ev :=
  (parse_master event st).2.1 evs st2 h

theorem parse_ctu_input_none_or_nonempty_C10_witness :
    (parse (vobj [("toolUse", vobj [("toolUseId", .str "t2"), ("name", .str "calc"),
        ("input", vobj [])])]) initialState =
      .ok [ParsedEvent.currentToolUse (.str "calc") (.str "t2") Value.null Value.null]
        { initialState with
            displayed_tool_calls := [.str "t2"]
            tool_use_mapping := [(.str "t2", .str "calc")]
            last_tool_input := [(ToolKey.plain (.str "t2"), vobj [])] }) ∧
    (∀ ev ∈ [ParsedEvent.currentToolUse (.str "calc") (.str "t2") Value.null Value.null],
      ctuInputOK ev) :=
  ⟨by decide, parse_ctu_input_none_or_nonempty_C10
    (vobj [("toolUse", vobj [("toolUseId", .str "t2"), ("name", .str "calc"),
      ("input", vobj [])])]) initialState
    { initialState with
        displayed_tool_calls := [.str "t2"]
        tool_use_mapping := [(.str "t2", .str "calc")]
        last_tool_input := [(ToolKey.plain (.str "t2"), vobj [])] }
    [ParsedEvent.currentToolUse (.str "calc") (.str "t2") Value.null Value.null]
    (by decide)⟩

/-- Claim C4 (confirmed): processing the raw node-stream wrapper around an
inner event E through the renderer yields exactly the same outputs and the
same parser state as processing E directly: the parser defers the inner
event as one `nodeStream` value and the renderer's default node-stream
handler expands it exactly once.  The wrapper costs one unit of the fuel
that bounds Python's call-stack depth. -/
theorem renderer_node_stream_transparent_C4 (r : Renderer) (n : Nat) (nid E : Value)
    (st : ParserState) :
    process r (n + 1) (nodeStreamWrapper nid E) st = process r n E st := by
  have hp : parse (nodeStreamWrapper nid E) =
      Pure.pure [ParsedEvent.nodeStream nid E] := rfl
  simp only [process, hp, ParseM.bind_apply, ParseM.purePM_apply, ParseM.pure_apply,
    PResult.andThen_ok]
  simp only [processEvents, ParseM.bind_apply]
  cases hres : process r n E st with
  | ok l s =>
    simp only [PResult.andThen_ok, ParseM.bind_apply, ParseM.purePM_apply,
      ParseM.pure_apply, List.append_nil]
  | err e s =>
    simp only [PResult.andThen_err]

theorem ObjList.hasKey_of_getD_truthy (kvs : ObjList) (k : String) (d : Value)
    (hd : d.truthy = false) (h : (kvs.getD k d).truthy = true) : kvs.hasKey k = true := by
  unfold ObjList.getD at h
  unfold ObjList.hasKey
  cases hf : kvs.findV k with
  | some v => rfl
  | none =>
    rw [hf] at h
    rw [hd] at h
    cases h

theorem lifecycleEvents_filter_text (kvs : ObjList) :
    (lifecycleEvents kvs).filter ParsedEvent.isText = [] := by
  rw [List.filter_eq_nil]
  intro ev hev
  obtain ⟨lt, m, f, r, hev2⟩ := lifecycleEvents_shape kvs ev hev
  subst hev2
  simp [ParsedEvent.isText]

/-- Claim C9 (amended): for every event dict whose `data` value is truthy
and which the orchestration dispatch and the tool-stream branch do not
consume, a successful `parse` emits exactly one `TextEvent`, carrying that
`data` value with `source = None`; a falsy `data` value emits none (see the
counterexample). -/
theorem parse_truthy_data_text_event_C9 (kvs : ObjList) (st : ParserState)
    (horch : orchestrationEvents kvs = none)
    (hts : (kvs.getD "tool_stream_event" (vobj [])).truthy = false)
    (hdata : (kvs.getD "data" Value.null).truthy = true)
    (htu : toolUseIdOK kvs = true) (htr : toolResultIdOK kvs = true) :
    ∃ evs st2, parse (Value.obj kvs) st = .ok evs st2 ∧
      evs.filter ParsedEvent.isText =
        [ParsedEvent.text (kvs.getD "data" Value.null) Value.null] := by
  have hpe : parse (Value.obj kvs) = parseMainRest kvs (lifecycleEvents kvs) := by
    show parseObj kvs = _
    rw [parseObj_none_eq kvs horch, pno_main_eq kvs hts]
  have pmm := parseMainRest_master kvs (lifecycleEvents kvs) st
  obtain ⟨evs, st2, he⟩ := PResult.exists_ok_of_isOk (pmm.2.2.2 htu htr)
  refine ⟨evs, st2, by rw [hpe]; exact he, ?_⟩
  rw [pmm.2.2.1 evs st2 he, List.filter_append, lifecycleEvents_filter_text,
    List.nil_append]
  have hk : kvs.hasKey "data" = true :=
    ObjList.hasKey_of_getD_truthy kvs "data" Value.null rfl hdata
  simp only [dataEvents, hk, hdata, if_true]
  simp [ParsedEvent.isText]

theorem parse_truthy_data_text_event_C9_witness :
    ∃ evs st2, parse (vobj [("data", Value.str "Hello")]) initialState = .ok evs st2 ∧
      evs.filter ParsedEvent.isText = [ParsedEvent.text (Value.str "Hello") Value.null] := by
  have h := parse_truthy_data_text_event_C9 (.cons "data" (Value.str "Hello") .nil)
    initialState (by decide) (by decide) (by decide) (by decide) (by decide)
  exact h

theorem toolUseSection_noUse (kvs : ObjList) (acc : List ParsedEvent) (st : ParserState)
    (hx : extract_tool_use_from_event (Value.obj kvs) = .ok none) :
    toolUseSection (Value.obj kvs) acc st = .ok acc st := by
  unfold toolUseSection
  simp only [ParseM.bind_apply, hx, ParseM.liftE_ok, PResult.andThen_ok,
    ParseM.purePM_apply, ParseM.pure_apply]

theorem toolResultSection_noResult (kvs : ObjList) (acc : List ParsedEvent)
    (st : ParserState)
    (hx : extract_tool_result_from_event (Value.obj kvs) = .ok none) :
    toolResultSection (Value.obj kvs) acc st = .ok acc st := by
  unfold toolResultSection
  simp only [ParseM.bind_apply, hx, ParseM.liftE_ok, PResult.andThen_ok,
    ParseM.purePM_apply, ParseM.pure_apply]

theorem pmemV_setDiscard (l : List Value) (v : Value) :
    pmemV (setDiscard l v) v = false := by
  induction l with
  | nil => rfl
  | cons x t ih =>
    unfold setDiscard pmemV at ih ⊢
    rw [List.filter_cons]
    by_cases hx : x.pyEq v = true
    · simp only [hx, Bool.not_true, Bool.false_eq_true, if_false]
      exact ih
    · simp only [Bool.not_eq_true] at hx
      simp only [hx, Bool.not_false, if_true, List.any_cons, hx, Bool.false_or]
      exact ih

theorem vdict_find_none (m : List (Value × Value)) (k : Value)
    (h : vdictHasKey m k = false) :
    m.find? (fun kv => kv.1.pyEq k) = none := by
  rw [List.find?_eq_none]
  intro x hx
  unfold vdictHasKey at h
  rw [List.any_eq_false] at h
  simp [h x hx]

theorem mainAcc_no_toolResult (kvs : ObjList) :
    ∀ ev ∈ lifecycleEvents kvs ++ dataEvents kvs, ev.isToolResult = false := by
  intro ev hev
  rw [List.mem_append] at hev
  rcases hev with hev | hev
  · obtain ⟨lt, m, f, r, h2⟩ := lifecycleEvents_shape kvs ev hev
    subst h2
    rfl
  · rcases dataEvents_shape kvs with h | ⟨d, h⟩
    · rw [h] at hev
      cases hev
    · rw [h] at hev
      rw [List.mem_singleton] at hev
      subst hev
      rfl

/-- Claim C6 (confirmed): when a top-level raw event carries a truthy tool
result whose hashable `toolUseId` is currently in `active_subagent_tools`
(and the event escapes the orchestration and tool-stream branches, with a
raise-free tool-use rule), a successful `parse` removes that id from
`active_subagent_tools` and emits no `ToolResultEvent` at all. -/
theorem parse_active_tool_result_suppressed_C6 (kvs tr : ObjList) (st : ParserState)
    (horch : orchestrationEvents kvs = none)
    (hts : (kvs.getD "tool_stream_event" (vobj [])).truthy = false)
    (htuok : toolUseIdOK kvs = true)
    (hx : extract_tool_result_from_event (Value.obj kvs) = .ok (some tr))
    (htr : (Value.obj tr).truthy = true)
    (hh : (tr.getD "toolUseId" (Value.str "")).hashable = true)
    (hmem : pmemV st.active_subagent_tools (tr.getD "toolUseId" (Value.str "")) = true) :
    ∃ evs st2, parse (Value.obj kvs) st = .ok evs st2 ∧
      st2.active_subagent_tools =
        setDiscard st.active_subagent_tools (tr.getD "toolUseId" (Value.str "")) ∧
      pmemV st2.active_subagent_tools (tr.getD "toolUseId" (Value.str "")) = false ∧
      ∀ ev ∈ evs, ev.isToolResult = false := by
  have hpe : parse (Value.obj kvs) = parseMainRest kvs (lifecycleEvents kvs) := by
    show parseObj kvs = _
    rw [parseObj_none_eq kvs horch, pno_main_eq kvs hts]
  rw [hpe]
  unfold parseMainRest
  simp only [ParseM.bind_apply]
  have tum := toolUseSection_master kvs (lifecycleEvents kvs ++ dataEvents kvs) st
  cases htus : toolUseSection (Value.obj kvs) (lifecycleEvents kvs ++ dataEvents kvs) st with
  | err e s1 =>
    rw [htus] at tum
    have h2 := tum.2.2 htuok
    cases h2
  | ok evs1 s1 =>
    rw [htus] at tum
    have hact : s1.active_subagent_tools = st.active_subagent_tools := by
      have h3 := tum.1.2
      simpa [PResult.state] using h3
    simp only [PResult.andThen_ok, ParseM.bind_apply]
    have trm := (toolResultSection_master kvs evs1 s1).2.2.2 tr hx htr hh
    have hmem1 : pmemV s1.active_subagent_tools (tr.getD "toolUseId" (Value.str "")) =
        true := by
      rw [hact]
      exact hmem
    rw [trm.1 hmem1]
    simp only [PResult.andThen_ok, ParseM.purePM_apply, ParseM.pure_apply]
    refine ⟨evs1 ++ reasoningEvents kvs, _, rfl, ?_, ?_, ?_⟩
    · show setDiscard s1.active_subagent_tools (tr.getD "toolUseId" (Value.str "")) =
        setDiscard st.active_subagent_tools (tr.getD "toolUseId" (Value.str ""))
      rw [hact]
    · exact pmemV_setDiscard s1.active_subagent_tools _
    · intro ev hev
      rw [List.mem_append] at hev
      rcases hev with hev | hev
      · obtain ⟨extra, he1, he2⟩ := tum.2.1 evs1 s1 rfl
        subst he1
        rw [List.mem_append] at hev
        rcases hev with hev | hev
        · exact mainAcc_no_toolResult kvs ev hev
        · rcases he2 with he2 | ⟨n, i, inpv, he2, _⟩
          · rw [he2] at hev
            cases hev
          · rw [he2] at hev
            rw [List.mem_singleton] at hev
            subst hev
            rfl
      · rcases reasoningEvents_shape kvs with h | ⟨d, m, h⟩
        · rw [h] at hev
          cases hev
        · rw [h] at hev
          rw [List.mem_singleton] at hev
          subst hev
          rfl

theorem parse_active_tool_result_suppressed_C6_witness :
    ∃ evs st2,
      parse (vobj [("message", vobj [("content", vlist [vobj [("toolResult",
          vobj [("toolUseId", Value.str "t9"), ("status", Value.str "success")])]])])])
        { initialState with active_subagent_tools := [Value.str "t9"] } = .ok evs st2 ∧
      st2.active_subagent_tools =
        setDiscard [Value.str "t9"] ((ObjList.cons "toolUseId" (Value.str "t9")
          (.cons "status" (Value.str "success") .nil)).getD "toolUseId" (Value.str "")) ∧
      pmemV st2.active_subagent_tools ((ObjList.cons "toolUseId" (Value.str "t9")
        (.cons "status" (Value.str "success") .nil)).getD "toolUseId" (Value.str "")) =
          false ∧
      ∀ ev ∈ evs, ev.isToolResult = false :=
  parse_active_tool_result_suppressed_C6
    (.cons "message" (vobj [("content", vlist [vobj [("toolResult",
      vobj [("toolUseId", Value.str "t9"), ("status", Value.str "success")])]])]) .nil)
    (.cons "toolUseId" (Value.str "t9") (.cons "status" (Value.str "success") .nil))
    { initialState with active_subagent_tools := [Value.str "t9"] }
    (by decide) (by decide) (by decide) (by rfl) (by decide) (by decide) (by decide)

/-- Claim C8 (confirmed): a truthy tool result whose hashable `toolUseId`
was never recorded in `tool_use_mapping` and is not an active sub-agent tool
is still emitted (the event here carrying no tool use of its own and
escaping the orchestration and tool-stream branches), as a `ToolResultEvent`
with `tool_name = "unknown"`, leaving the state untouched. -/
theorem parse_unknown_tool_result_C8 (kvs tr : ObjList) (st : ParserState)
    (horch : orchestrationEvents kvs = none)
    (hts : (kvs.getD "tool_stream_event" (vobj [])).truthy = false)
    (hxu : extract_tool_use_from_event (Value.obj kvs) = .ok none)
    (hx : extract_tool_result_from_event (Value.obj kvs) = .ok (some tr))
    (htr : (Value.obj tr).truthy = true)
    (hh : (tr.getD "toolUseId" (Value.str "")).hashable = true)
    (hactive : pmemV st.active_subagent_tools (tr.getD "toolUseId" (Value.str "")) =
      false)
    (hmap : vdictHasKey st.tool_use_mapping (tr.getD "toolUseId" (Value.str "")) =
      false) :
    parse (Value.obj kvs) st = .ok
      (((lifecycleEvents kvs ++ dataEvents kvs) ++
        [ParsedEvent.toolResult (extract_result_content (Value.obj tr))
          (Value.str "unknown") (tr.getD "toolUseId" (Value.str ""))
          (if (tr.getD "status" (Value.str "")).truthy = true then
            vobj [("status", tr.getD "status" (Value.str ""))]
           else Value.null) Value.null]) ++ reasoningEvents kvs) st := by
  have hpe : parse (Value.obj kvs) = parseMainRest kvs (lifecycleEvents kvs) := by
    show parseObj kvs = _
    rw [parseObj_none_eq kvs horch, pno_main_eq kvs hts]
  rw [hpe]
  unfold parseMainRest
  simp only [ParseM.bind_apply]
  rw [toolUseSection_noUse kvs _ st hxu]
  simp only [PResult.andThen_ok, ParseM.bind_apply]
  have trm := (toolResultSection_master kvs (lifecycleEvents kvs ++ dataEvents kvs)
    st).2.2.2 tr hx htr hh
  have h2 := trm.2 hactive
  rw [vdict_find_none st.tool_use_mapping _ hmap] at h2
  rw [h2]
  simp only [PResult.andThen_ok, ParseM.purePM_apply, ParseM.pure_apply]

theorem parse_unknown_tool_result_C8_witness :
    parse (vobj [("message", vobj [("content", vlist [vobj [("toolResult",
        vobj [("toolUseId", Value.str "tx"), ("content", vlist [vobj [("text",
          Value.str "out")]])])]])])]) initialState = .ok
      (((lifecycleEvents (.cons "message" (vobj [("content", vlist [vobj [("toolResult",
          vobj [("toolUseId", Value.str "tx"), ("content", vlist [vobj [("text",
            Value.str "out")]])])]])]) .nil) ++
        dataEvents (.cons "message" (vobj [("content", vlist [vobj [("toolResult",
          vobj [("toolUseId", Value.str "tx"), ("content", vlist [vobj [("text",
            Value.str "out")]])])]])]) .nil)) ++
        [ParsedEvent.toolResult (extract_result_content (Value.obj (.cons "toolUseId"
            (Value.str "tx") (.cons "content" (vlist [vobj [("text", Value.str "out")]])
              .nil))))
          (Value.str "unknown")
          ((ObjList.cons "toolUseId" (Value.str "tx") (.cons "content"
            (vlist [vobj [("text", Value.str "out")]]) .nil)).getD "toolUseId"
              (Value.str ""))
          (if ((ObjList.cons "toolUseId" (Value.str "tx") (.cons "content"
              (vlist [vobj [("text", Value.str "out")]]) .nil)).getD "status"
                (Value.str "")).truthy = true then
            vobj [("status", (ObjList.cons "toolUseId" (Value.str "tx") (.cons "content"
              (vlist [vobj [("text", Value.str "out")]]) .nil)).getD "status"
                (Value.str ""))]
           else Value.null) Value.null]) ++
        reasoningEvents (.cons "message" (vobj [("content", vlist [vobj [("toolResult",
          vobj [("toolUseId", Value.str "tx"), ("content", vlist [vobj [("text",
            Value.str "out")]])])]])]) .nil)) initialState :=
  parse_unknown_tool_result_C8
    (.cons "message" (vobj [("content", vlist [vobj [("toolResult",
      vobj [("toolUseId", Value.str "tx"), ("content", vlist [vobj [("text",
        Value.str "out")]])])]])]) .nil)
    (.cons "toolUseId" (Value.str "tx") (.cons "content"
      (vlist [vobj [("text", Value.str "out")]]) .nil))
    initialState
    (by decide) (by decide) (by rfl) (by rfl) (by decide) (by decide) (by decide)
    (by decide)

theorem Value.pyEq_refl_of_hashable (v : Value) (h : v.hashable = true) :
    v.pyEq v = true := by
  cases v with
  | null => rfl
  | bool b => simp [Value.pyEq]
  | int n => simp [Value.pyEq]
  | str s => simp [Value.pyEq]
  | list xs => simp [Value.hashable] at h
  | obj kvs => simp [Value.hashable] at h

theorem pmemV_append_self (l : List Value) (v : Value) (h : v.pyEq v = true) :
    pmemV (l ++ [v]) v = true := by
  unfold pmemV
  rw [List.any_append]
  simp [h]

/-- Claim C5 (confirmed): a tool-stream envelope whose stream data carries
both an `event` and a `skill_name` key is a sub-agent relay — the marking
step adds the envelope's dict tool-use `toolUseId` (truthy and hashable) to
`active_subagent_tools`, after which a successful recursive sub-agent parse
of the inner event with the skill name as `source` is exactly what `parse`
returns (here with no lifecycle flags set), and no `ToolStreamEvent` appears
in that output. -/
theorem parse_subagent_relay_C5 (kvs ts tu : ObjList) (sub sk : Value) (st : ParserState)
    (horch : orchestrationEvents kvs = none)
    (hts : kvs.getD "tool_stream_event" (vobj []) = Value.obj ts)
    (htru : (Value.obj ts).truthy = true)
    (hrel : relayData (ts.getD "data" Value.null) = some (sub, sk))
    (hlc : lifecycleEvents kvs = [])
    (htu : ts.getD "tool_use" Value.null = Value.obj tu)
    (hid : (tu.getD "toolUseId" Value.null).truthy = true)
    (hh : (tu.getD "toolUseId" Value.null).hashable = true) :
    ∃ st1, markActiveSubagent (ts.getD "tool_use" Value.null) st = .ok () st1 ∧
      pmemV st1.active_subagent_tools (tu.getD "toolUseId" Value.null) = true ∧
      ∀ sevs s2, parse_subagent_event sub sk st1 = .ok sevs s2 →
        parse (Value.obj kvs) st = .ok sevs s2 ∧
        ∀ ev ∈ sevs, ev.isToolStream = false := by
  have hma := (markActive_master (ts.getD "tool_use" Value.null) st).2.2 tu htu hid hh
  refine ⟨_, hma, ?_, ?_⟩
  · show pmemV (if pmemV st.active_subagent_tools (tu.getD "toolUseId" Value.null) then
        st.active_subagent_tools
      else st.active_subagent_tools ++ [tu.getD "toolUseId" Value.null])
      (tu.getD "toolUseId" Value.null) = true
    by_cases hmem : pmemV st.active_subagent_tools (tu.getD "toolUseId" Value.null) = true
    · rw [if_pos hmem]
      exact hmem
    · rw [Bool.not_eq_true] at hmem
      rw [hmem]
      simp only [Bool.false_eq_true, if_false]
      exact pmemV_append_self _ _ (Value.pyEq_refl_of_hashable _ hh)
  · intro sevs s2 hsp
    constructor
    · have hpe : parse (Value.obj kvs) =
          parseToolStreamBranch kvs ts (lifecycleEvents kvs) := by
        show parseObj kvs = _
        rw [parseObj_none_eq kvs horch, pno_stream_eq kvs ts hts htru]
      rw [hpe, hlc, ptsb_relay_eq kvs ts [] sub sk hrel]
      simp only [ParseM.bind_apply]
      rw [hma]
      simp only [PResult.andThen_ok, ParseM.bind_apply]
      rw [hsp]
      simp only [PResult.andThen_ok, ParseM.purePM_apply, ParseM.pure_apply,
        List.nil_append]
    · intro ev hev
      exact (((subparse_master sub sk _).2.1 sevs s2 hsp) ev hev).1

theorem parse_subagent_relay_C5_witness :
    ∃ st1, markActiveSubagent ((ObjList.cons "tool_use"
        (vobj [("toolUseId", Value.str "t9")]) (.cons "data" (vobj [("event",
          vobj [("data", Value.str "sub text")]), ("skill_name",
            Value.str "web-research")]) .nil)).getD "tool_use" Value.null)
        initialState = .ok () st1 ∧
      pmemV st1.active_subagent_tools ((ObjList.cons "toolUseId" (Value.str "t9")
        .nil).getD "toolUseId" Value.null) = true ∧
      ∀ sevs s2, parse_subagent_event (vobj [("data", Value.str "sub text")])
          (Value.str "web-research") st1 = .ok sevs s2 →
        parse (vobj [("tool_stream_event", vobj [("tool_use",
          vobj [("toolUseId", Value.str "t9")]), ("data", vobj [("event",
            vobj [("data", Value.str "sub text")]), ("skill_name",
              Value.str "web-research")])])]) initialState = .ok sevs s2 ∧
        ∀ ev ∈ sevs, ev.isToolStream = false :=
  parse_subagent_relay_C5
    (.cons "tool_stream_event" (vobj [("tool_use", vobj [("toolUseId", Value.str "t9")]),
      ("data", vobj [("event", vobj [("data", Value.str "sub text")]), ("skill_name",
        Value.str "web-research")])]) .nil)
    (.cons "tool_use" (vobj [("toolUseId", Value.str "t9")]) (.cons "data"
      (vobj [("event", vobj [("data", Value.str "sub text")]), ("skill_name",
        Value.str "web-research")]) .nil))
    (.cons "toolUseId" (Value.str "t9") .nil)
    (vobj [("data", Value.str "sub text")]) (Value.str "web-research") initialState
    (by decide) (by decide) (by decide) (by decide) (by decide) (by decide) (by decide)
    (by decide)

theorem vdictSet_hasKey_eq (m : List (Value × Value)) (k v : Value)
    (h : vdictHasKey m k = true) :
    vdictSet m k v = m.map fun kv => if kv.1.pyEq k = true then (kv.1, v) else kv := by
  unfold vdictSet
  rw [if_pos h]

theorem vdictSet_noKey_eq (m : List (Value × Value)) (k v : Value)
    (h : vdictHasKey m k = false) :
    vdictSet m k v = m ++ [(k, v)] := by
  unfold vdictSet
  rw [h]
  simp

theorem map_keysame_id (m : List (Value × Value)) (k v : Value)
    (h : ∀ kv ∈ m, kv.1.pyEq k = false) :
    (m.map fun kv => if kv.1.pyEq k = true then (kv.1, v) else kv) = m := by
  induction m with
  | nil => rfl
  | cons x t ih =>
    rw [List.map_cons]
    rw [ih (fun kv hkv => h kv (List.mem_cons_of_mem x hkv))]
    rw [h x (List.mem_cons_self x t)]
    simp

theorem map_set_set (m : List (Value × Value)) (k v : Value) :
    ((m.map fun kv => if kv.1.pyEq k = true then (kv.1, v) else kv).map
      fun kv => if kv.1.pyEq k = true then (kv.1, v) else kv) =
    m.map fun kv => if kv.1.pyEq k = true then (kv.1, v) else kv := by
  induction m with
  | nil => rfl
  | cons x t ih =>
    rw [List.map_cons, List.map_cons, ih]
    by_cases hx : x.1.pyEq k = true
    · simp [hx]
    · simp [hx]

theorem vdictSet_idem (m : List (Value × Value)) (k v : Value) (hk : k.pyEq k = true) :
    vdictSet (vdictSet m k v) k v = vdictSet m k v := by
  by_cases h : vdictHasKey m k = true
  · have h2 : vdictHasKey (m.map fun kv => if kv.1.pyEq k = true then (kv.1, v) else kv)
        k = true := by
      rw [← vdictSet_hasKey_eq m k v h]
      exact vdictHasKey_vdictSet_mono m k v k h
    rw [vdictSet_hasKey_eq m k v h, vdictSet_hasKey_eq _ k v h2, map_set_set]
  · rw [Bool.not_eq_true] at h
    have h2 : vdictHasKey (m ++ [(k, v)]) k = true := by
      unfold vdictHasKey at h ⊢
      rw [List.any_append, h]
      simp [hk]
    have h3 : ∀ kv ∈ m, kv.1.pyEq k = false := by
      unfold vdictHasKey at h
      rw [List.any_eq_false] at h
      intro kv hkv
      simpa using h kv hkv
    rw [vdictSet_noKey_eq m k v h, vdictSet_hasKey_eq _ k v h2, List.map_append,
      map_keysame_id m k v h3]
    simp [hk]

theorem kdict_find_none (m : List (ToolKey × Value)) (k : ToolKey)
    (h : kdictHasKey m k = false) :
    m.find? (fun kv => kv.1.pyEqK k) = none := by
  rw [List.find?_eq_none]
  intro x hx
  unfold kdictHasKey at h
  rw [List.any_eq_false] at h
  simp [h x hx]

theorem kdict_find_append_self (m : List (ToolKey × Value)) (k : ToolKey) (v : Value)
    (hm : kdictHasKey m k = false) (hk : k.pyEqK k = true) :
    (m ++ [(k, v)]).find? (fun kv => kv.1.pyEqK k) = some (k, v) := by
  induction m with
  | nil => simp [List.find?, hk]
  | cons x t ih =>
    unfold kdictHasKey at hm
    rw [List.any_cons, Bool.or_eq_false_iff] at hm
    rw [List.cons_append, List.find?_cons_of_neg _ (by simp [hm.1])]
    exact ih hm.2

/-- Claim C2 (confirmed): for any top-level tool-use raw event with a truthy
`toolUseId`, a truthy name and a dict input (whose inner dicts are
duplicate-key free, as Python dicts are), from any state with no active
sub-agent tools that has not yet seen the id: the first `parse` emits
exactly one `CurrentToolUseEvent` and records the id, name and input
snapshot, and parsing the identical event again from the resulting state is
a fixpoint emitting zero events — so every subsequent identical repeat
emits nothing. -/
theorem parse_tool_use_dedup_C2 (id nm : String) (inp : ObjList) (st : ParserState)
    (hid : (Value.str id).truthy = true)
    (hnm : (Value.str nm).truthy = true)
    (hwf : (Value.obj inp).wfKeys = true)
    (hactive : st.active_subagent_tools = [])
    (hdisp : pmemV st.displayed_tool_calls (Value.str id) = false)
    (hlast : kdictHasKey st.last_tool_input (ToolKey.plain (Value.str id)) = false) :
    parse (Value.obj (ObjList.cons "toolUse" (Value.obj (ObjList.cons "toolUseId" (Value.str id) (.cons "name" (Value.str nm) (.cons "input" (Value.obj inp) .nil)))) .nil)) st = .ok [(ParsedEvent.currentToolUse (Value.str nm) (Value.str id) (if (Value.obj inp).truthy = true then Value.obj inp else Value.null) Value.null)] ({ st with tool_use_mapping := vdictSet st.tool_use_mapping (Value.str id) (Value.str nm), last_tool_input := kdictSet st.last_tool_input (ToolKey.plain (Value.str id)) (Value.obj inp), displayed_tool_calls := st.displayed_tool_calls ++ [Value.str id] }) ∧
    parse (Value.obj (ObjList.cons "toolUse" (Value.obj (ObjList.cons "toolUseId" (Value.str id) (.cons "name" (Value.str nm) (.cons "input" (Value.obj inp) .nil)))) .nil)) ({ st with tool_use_mapping := vdictSet st.tool_use_mapping (Value.str id) (Value.str nm), last_tool_input := kdictSet st.last_tool_input (ToolKey.plain (Value.str id)) (Value.obj inp), displayed_tool_calls := st.displayed_tool_calls ++ [Value.str id] }) = .ok [] ({ st with tool_use_mapping := vdictSet st.tool_use_mapping (Value.str id) (Value.str nm), last_tool_input := kdictSet st.last_tool_input (ToolKey.plain (Value.str id)) (Value.obj inp), displayed_tool_calls := st.displayed_tool_calls ++ [Value.str id] }) := by
  have hrec0 : recordToolMapping (Value.str id) (Value.str nm) st = .ok () ({ st with tool_use_mapping := vdictSet st.tool_use_mapping (Value.str id) (Value.str nm) }) :=
    recordToolMapping_set (Value.str id) (Value.str nm) st (by simp [hid, hnm]) rfl
  have hnew0 : checkIsNew (Value.str id) ({ st with tool_use_mapping := vdictSet st.tool_use_mapping (Value.str id) (Value.str nm) }) = .ok true ({ st with tool_use_mapping := vdictSet st.tool_use_mapping (Value.str id) (Value.str nm) }) := by
    rw [checkIsNew_mem (Value.str id) ({ st with tool_use_mapping := vdictSet st.tool_use_mapping (Value.str id) (Value.str nm) }) hid rfl]
    rw [show (({ st with tool_use_mapping := vdictSet st.tool_use_mapping (Value.str id) (Value.str nm) }) : ParserState).displayed_tool_calls = st.displayed_tool_calls from
      rfl, hdisp]
    rfl
  have hchg0 : checkInputChanged (Value.str id) Value.null (Value.obj inp) ({ st with tool_use_mapping := vdictSet st.tool_use_mapping (Value.str id) (Value.str nm) }) =
      .ok true ({ st with tool_use_mapping := vdictSet st.tool_use_mapping (Value.str id) (Value.str nm), last_tool_input := kdictSet st.last_tool_input (ToolKey.plain (Value.str id)) (Value.obj inp) }) := by
    rw [checkInputChanged_fresh (Value.str id) Value.null (Value.obj inp) ({ st with tool_use_mapping := vdictSet st.tool_use_mapping (Value.str id) (Value.str nm) }) hid rfl
      (kdict_find_none st.last_tool_input (ToolKey.plain (Value.str id)) hlast)]
    rfl
  have hdec0 : emitDecision true true (Value.str nm) (Value.str id) (Value.obj inp)
      Value.null ({ st with tool_use_mapping := vdictSet st.tool_use_mapping (Value.str id) (Value.str nm), last_tool_input := kdictSet st.last_tool_input (ToolKey.plain (Value.str id)) (Value.obj inp) }) = .ok [(ParsedEvent.currentToolUse (Value.str nm) (Value.str id) (if (Value.obj inp).truthy = true then Value.obj inp else Value.null) Value.null)] ({ st with tool_use_mapping := vdictSet st.tool_use_mapping (Value.str id) (Value.str nm), last_tool_input := kdictSet st.last_tool_input (ToolKey.plain (Value.str id)) (Value.obj inp), displayed_tool_calls := st.displayed_tool_calls ++ [Value.str id] }) := by
    rw [emitDecision_new true (Value.str nm) (Value.str id) (Value.obj inp) Value.null
      ({ st with tool_use_mapping := vdictSet st.tool_use_mapping (Value.str id) (Value.str nm), last_tool_input := kdictSet st.last_tool_input (ToolKey.plain (Value.str id)) (Value.obj inp) }) rfl]
    rw [show (({ st with tool_use_mapping := vdictSet st.tool_use_mapping (Value.str id) (Value.str nm), last_tool_input := kdictSet st.last_tool_input (ToolKey.plain (Value.str id)) (Value.obj inp) }) : ParserState).displayed_tool_calls = st.displayed_tool_calls from
      rfl, hdisp]
    simp only [Bool.false_eq_true, if_false]
  have hsec0 : toolUseSection (Value.obj (ObjList.cons "toolUse" (Value.obj (ObjList.cons "toolUseId" (Value.str id) (.cons "name" (Value.str nm) (.cons "input" (Value.obj inp) .nil)))) .nil)) [] st = .ok [(ParsedEvent.currentToolUse (Value.str nm) (Value.str id) (if (Value.obj inp).truthy = true then Value.obj inp else Value.null) Value.null)] ({ st with tool_use_mapping := vdictSet st.tool_use_mapping (Value.str id) (Value.str nm), last_tool_input := kdictSet st.last_tool_input (ToolKey.plain (Value.str id)) (Value.obj inp), displayed_tool_calls := st.displayed_tool_calls ++ [Value.str id] }) := by
    unfold toolUseSection
    simp only [ParseM.bind_apply]
    rw [show extract_tool_use_from_event (Value.obj (ObjList.cons "toolUse" (Value.obj (ObjList.cons "toolUseId" (Value.str id) (.cons "name" (Value.str nm) (.cons "input" (Value.obj inp) .nil)))) .nil)) = Except.ok (some (ObjList.cons "toolUseId" (Value.str id) (.cons "name" (Value.str nm) (.cons "input" (Value.obj inp) .nil)))) from
      rfl]
    simp only [ParseM.liftE_ok, ParseM.purePM_apply, PResult.andThen_ok]
    simp only [show (Value.obj (ObjList.cons "toolUseId" (Value.str id) (.cons "name" (Value.str nm) (.cons "input" (Value.obj inp) .nil)))).truthy = true from rfl, if_true]
    simp only [ParseM.bind_apply, ParseM.get_apply, PResult.andThen_ok, ParseM.ite_apply]
    rw [if_pos (show st.active_subagent_tools.isEmpty = true from by rw [hactive]; rfl)]
    rw [show emit_tool_use_event (ObjList.cons "toolUseId" (Value.str id) (.cons "name" (Value.str nm) (.cons "input" (Value.obj inp) .nil))) Value.null =
      Bind.bind (recordToolMapping (Value.str id) (Value.str nm))
        (fun _ => emitTailPhases (Value.str id) (Value.str nm) (Value.obj inp)
          Value.null) from rfl]
    simp only [ParseM.bind_apply]
    rw [hrec0]
    simp only [PResult.andThen_ok]
    unfold emitTailPhases
    simp only [ParseM.bind_apply]
    rw [hnew0]
    simp only [PResult.andThen_ok, ParseM.bind_apply]
    rw [hchg0]
    simp only [PResult.andThen_ok, ParseM.bind_apply]
    rw [hdec0]
    simp only [PResult.andThen_ok, ParseM.purePM_apply, ParseM.pure_apply,
      List.nil_append]
  have hpe : parse (Value.obj (ObjList.cons "toolUse" (Value.obj (ObjList.cons "toolUseId" (Value.str id) (.cons "name" (Value.str nm) (.cons "input" (Value.obj inp) .nil)))) .nil)) = parseMainRest (ObjList.cons "toolUse" (Value.obj (ObjList.cons "toolUseId" (Value.str id) (.cons "name" (Value.str nm) (.cons "input" (Value.obj inp) .nil)))) .nil) (lifecycleEvents (ObjList.cons "toolUse" (Value.obj (ObjList.cons "toolUseId" (Value.str id) (.cons "name" (Value.str nm) (.cons "input" (Value.obj inp) .nil)))) .nil)) := by
    show parseObj (ObjList.cons "toolUse" (Value.obj (ObjList.cons "toolUseId" (Value.str id) (.cons "name" (Value.str nm) (.cons "input" (Value.obj inp) .nil)))) .nil) = _
    rw [parseObj_none_eq (ObjList.cons "toolUse" (Value.obj (ObjList.cons "toolUseId" (Value.str id) (.cons "name" (Value.str nm) (.cons "input" (Value.obj inp) .nil)))) .nil) rfl, pno_main_eq (ObjList.cons "toolUse" (Value.obj (ObjList.cons "toolUseId" (Value.str id) (.cons "name" (Value.str nm) (.cons "input" (Value.obj inp) .nil)))) .nil) rfl]
  constructor
  · rw [hpe]
    unfold parseMainRest
    simp only [ParseM.bind_apply]
    rw [show lifecycleEvents (ObjList.cons "toolUse" (Value.obj (ObjList.cons "toolUseId" (Value.str id) (.cons "name" (Value.str nm) (.cons "input" (Value.obj inp) .nil)))) .nil) = [] from rfl, show dataEvents (ObjList.cons "toolUse" (Value.obj (ObjList.cons "toolUseId" (Value.str id) (.cons "name" (Value.str nm) (.cons "input" (Value.obj inp) .nil)))) .nil) = [] from rfl]
    simp only [List.append_nil]
    rw [hsec0]
    simp only [PResult.andThen_ok, ParseM.bind_apply]
    rw [toolResultSection_noResult (ObjList.cons "toolUse" (Value.obj (ObjList.cons "toolUseId" (Value.str id) (.cons "name" (Value.str nm) (.cons "input" (Value.obj inp) .nil)))) .nil) [(ParsedEvent.currentToolUse (Value.str nm) (Value.str id) (if (Value.obj inp).truthy = true then Value.obj inp else Value.null) Value.null)] ({ st with tool_use_mapping := vdictSet st.tool_use_mapping (Value.str id) (Value.str nm), last_tool_input := kdictSet st.last_tool_input (ToolKey.plain (Value.str id)) (Value.obj inp), displayed_tool_calls := st.displayed_tool_calls ++ [Value.str id] }) rfl]
    simp only [PResult.andThen_ok, ParseM.purePM_apply, ParseM.pure_apply]
    rw [show reasoningEvents (ObjList.cons "toolUse" (Value.obj (ObjList.cons "toolUseId" (Value.str id) (.cons "name" (Value.str nm) (.cons "input" (Value.obj inp) .nil)))) .nil) = [] from rfl]
    simp only [List.append_nil]
  · have hrec1 : recordToolMapping (Value.str id) (Value.str nm) ({ st with tool_use_mapping := vdictSet st.tool_use_mapping (Value.str id) (Value.str nm), last_tool_input := kdictSet st.last_tool_input (ToolKey.plain (Value.str id)) (Value.obj inp), displayed_tool_calls := st.displayed_tool_calls ++ [Value.str id] }) =
        .ok () ({ st with tool_use_mapping := vdictSet st.tool_use_mapping (Value.str id) (Value.str nm), last_tool_input := kdictSet st.last_tool_input (ToolKey.plain (Value.str id)) (Value.obj inp), displayed_tool_calls := st.displayed_tool_calls ++ [Value.str id] }) := by
      rw [recordToolMapping_set (Value.str id) (Value.str nm) ({ st with tool_use_mapping := vdictSet st.tool_use_mapping (Value.str id) (Value.str nm), last_tool_input := kdictSet st.last_tool_input (ToolKey.plain (Value.str id)) (Value.obj inp), displayed_tool_calls := st.displayed_tool_calls ++ [Value.str id] })
        (by simp [hid, hnm]) rfl]
      rw [show (({ st with tool_use_mapping := vdictSet st.tool_use_mapping (Value.str id) (Value.str nm), last_tool_input := kdictSet st.last_tool_input (ToolKey.plain (Value.str id)) (Value.obj inp), displayed_tool_calls := st.displayed_tool_calls ++ [Value.str id] }) : ParserState).tool_use_mapping =
        vdictSet st.tool_use_mapping (Value.str id) (Value.str nm) from rfl]
      rw [vdictSet_idem st.tool_use_mapping (Value.str id) (Value.str nm)
        (Value.pyEq_refl_of_hashable (Value.str id) rfl)]
    have hnew1 : checkIsNew (Value.str id) ({ st with tool_use_mapping := vdictSet st.tool_use_mapping (Value.str id) (Value.str nm), last_tool_input := kdictSet st.last_tool_input (ToolKey.plain (Value.str id)) (Value.obj inp), displayed_tool_calls := st.displayed_tool_calls ++ [Value.str id] }) = .ok false ({ st with tool_use_mapping := vdictSet st.tool_use_mapping (Value.str id) (Value.str nm), last_tool_input := kdictSet st.last_tool_input (ToolKey.plain (Value.str id)) (Value.obj inp), displayed_tool_calls := st.displayed_tool_calls ++ [Value.str id] }) := by
      rw [checkIsNew_mem (Value.str id) ({ st with tool_use_mapping := vdictSet st.tool_use_mapping (Value.str id) (Value.str nm), last_tool_input := kdictSet st.last_tool_input (ToolKey.plain (Value.str id)) (Value.obj inp), displayed_tool_calls := st.displayed_tool_calls ++ [Value.str id] }) hid rfl]
      rw [show (({ st with tool_use_mapping := vdictSet st.tool_use_mapping (Value.str id) (Value.str nm), last_tool_input := kdictSet st.last_tool_input (ToolKey.plain (Value.str id)) (Value.obj inp), displayed_tool_calls := st.displayed_tool_calls ++ [Value.str id] }) : ParserState).displayed_tool_calls =
        st.displayed_tool_calls ++ [Value.str id] from rfl]
      rw [pmemV_append_self st.displayed_tool_calls (Value.str id)
        (Value.pyEq_refl_of_hashable (Value.str id) rfl)]
      rfl
    have hfind : (kdictSet st.last_tool_input (ToolKey.plain (Value.str id))
        (Value.obj inp)).find? (fun kv => kv.1.pyEqK (ToolKey.plain (Value.str id))) =
        some (ToolKey.plain (Value.str id), Value.obj inp) := by
      rw [show kdictSet st.last_tool_input (ToolKey.plain (Value.str id))
          (Value.obj inp) =
          st.last_tool_input ++ [(ToolKey.plain (Value.str id), Value.obj inp)] from by
        unfold kdictSet
        rw [hlast]
        simp]
      exact kdict_find_append_self st.last_tool_input (ToolKey.plain (Value.str id))
        (Value.obj inp) hlast (Value.pyEq_refl_of_hashable (Value.str id) rfl)
    have hchg1 : checkInputChanged (Value.str id) Value.null (Value.obj inp) ({ st with tool_use_mapping := vdictSet st.tool_use_mapping (Value.str id) (Value.str nm), last_tool_input := kdictSet st.last_tool_input (ToolKey.plain (Value.str id)) (Value.obj inp), displayed_tool_calls := st.displayed_tool_calls ++ [Value.str id] }) =
        .ok false ({ st with tool_use_mapping := vdictSet st.tool_use_mapping (Value.str id) (Value.str nm), last_tool_input := kdictSet st.last_tool_input (ToolKey.plain (Value.str id)) (Value.obj inp), displayed_tool_calls := st.displayed_tool_calls ++ [Value.str id] }) :=
      checkInputChanged_same (Value.str id) Value.null (Value.obj inp) ({ st with tool_use_mapping := vdictSet st.tool_use_mapping (Value.str id) (Value.str nm), last_tool_input := kdictSet st.last_tool_input (ToolKey.plain (Value.str id)) (Value.obj inp), displayed_tool_calls := st.displayed_tool_calls ++ [Value.str id] })
        (ToolKey.plain (Value.str id)) (Value.obj inp) hid rfl hfind
        (Value.pyEq_refl (Value.obj inp) hwf)
    have hsec1 : toolUseSection (Value.obj (ObjList.cons "toolUse" (Value.obj (ObjList.cons "toolUseId" (Value.str id) (.cons "name" (Value.str nm) (.cons "input" (Value.obj inp) .nil)))) .nil)) [] ({ st with tool_use_mapping := vdictSet st.tool_use_mapping (Value.str id) (Value.str nm), last_tool_input := kdictSet st.last_tool_input (ToolKey.plain (Value.str id)) (Value.obj inp), displayed_tool_calls := st.displayed_tool_calls ++ [Value.str id] }) = .ok [] ({ st with tool_use_mapping := vdictSet st.tool_use_mapping (Value.str id) (Value.str nm), last_tool_input := kdictSet st.last_tool_input (ToolKey.plain (Value.str id)) (Value.obj inp), displayed_tool_calls := st.displayed_tool_calls ++ [Value.str id] }) := by
      unfold toolUseSection
      simp only [ParseM.bind_apply]
      rw [show extract_tool_use_from_event (Value.obj (ObjList.cons "toolUse" (Value.obj (ObjList.cons "toolUseId" (Value.str id) (.cons "name" (Value.str nm) (.cons "input" (Value.obj inp) .nil)))) .nil)) = Except.ok (some (ObjList.cons "toolUseId" (Value.str id) (.cons "name" (Value.str nm) (.cons "input" (Value.obj inp) .nil))))
        from rfl]
      simp only [ParseM.liftE_ok, ParseM.purePM_apply, PResult.andThen_ok]
      simp only [show (Value.obj (ObjList.cons "toolUseId" (Value.str id) (.cons "name" (Value.str nm) (.cons "input" (Value.obj inp) .nil)))).truthy = true from rfl, if_true]
      simp only [ParseM.bind_apply, ParseM.get_apply, PResult.andThen_ok,
        ParseM.ite_apply]
      rw [if_pos (show (({ st with tool_use_mapping := vdictSet st.tool_use_mapping (Value.str id) (Value.str nm), last_tool_input := kdictSet st.last_tool_input (ToolKey.plain (Value.str id)) (Value.obj inp), displayed_tool_calls := st.displayed_tool_calls ++ [Value.str id] }) : ParserState).active_subagent_tools.isEmpty = true from by
        rw [show (({ st with tool_use_mapping := vdictSet st.tool_use_mapping (Value.str id) (Value.str nm), last_tool_input := kdictSet st.last_tool_input (ToolKey.plain (Value.str id)) (Value.obj inp), displayed_tool_calls := st.displayed_tool_calls ++ [Value.str id] }) : ParserState).active_subagent_tools = st.active_subagent_tools from rfl, hactive]; rfl)]
      rw [show emit_tool_use_event (ObjList.cons "toolUseId" (Value.str id) (.cons "name" (Value.str nm) (.cons "input" (Value.obj inp) .nil))) Value.null =
        Bind.bind (recordToolMapping (Value.str id) (Value.str nm))
          (fun _ => emitTailPhases (Value.str id) (Value.str nm) (Value.obj inp)
            Value.null) from rfl]
      simp only [ParseM.bind_apply]
      rw [hrec1]
      simp only [PResult.andThen_ok]
      unfold emitTailPhases
      simp only [ParseM.bind_apply]
      rw [hnew1]
      simp only [PResult.andThen_ok, ParseM.bind_apply]
      rw [hchg1]
      simp only [PResult.andThen_ok, ParseM.bind_apply]
      rw [emitDecision_silent (Value.str nm) (Value.str id) (Value.obj inp) Value.null
        ({ st with tool_use_mapping := vdictSet st.tool_use_mapping (Value.str id) (Value.str nm), last_tool_input := kdictSet st.last_tool_input (ToolKey.plain (Value.str id)) (Value.obj inp), displayed_tool_calls := st.displayed_tool_calls ++ [Value.str id] })]
      simp only [PResult.andThen_ok, ParseM.purePM_apply, ParseM.pure_apply,
        List.nil_append]
    rw [hpe]
    unfold parseMainRest
    simp only [ParseM.bind_apply]
    rw [show lifecycleEvents (ObjList.cons "toolUse" (Value.obj (ObjList.cons "toolUseId" (Value.str id) (.cons "name" (Value.str nm) (.cons "input" (Value.obj inp) .nil)))) .nil) = [] from rfl, show dataEvents (ObjList.cons "toolUse" (Value.obj (ObjList.cons "toolUseId" (Value.str id) (.cons "name" (Value.str nm) (.cons "input" (Value.obj inp) .nil)))) .nil) = [] from rfl]
    simp only [List.append_nil]
    rw [hsec1]
    simp only [PResult.andThen_ok, ParseM.bind_apply]
    rw [toolResultSection_noResult (ObjList.cons "toolUse" (Value.obj (ObjList.cons "toolUseId" (Value.str id) (.cons "name" (Value.str nm) (.cons "input" (Value.obj inp) .nil)))) .nil) [] ({ st with tool_use_mapping := vdictSet st.tool_use_mapping (Value.str id) (Value.str nm), last_tool_input := kdictSet st.last_tool_input (ToolKey.plain (Value.str id)) (Value.obj inp), displayed_tool_calls := st.displayed_tool_calls ++ [Value.str id] }) rfl]
    simp only [PResult.andThen_ok, ParseM.purePM_apply, ParseM.pure_apply]
    rw [show reasoningEvents (ObjList.cons "toolUse" (Value.obj (ObjList.cons "toolUseId" (Value.str id) (.cons "name" (Value.str nm) (.cons "input" (Value.obj inp) .nil)))) .nil) = [] from rfl]
    simp only [List.append_nil]

theorem parse_tool_use_dedup_C2_witness :
    ((Value.str "t1").truthy = true ∧ (Value.str "search").truthy = true ∧
      (Value.obj (.cons "q" (Value.str "x") .nil)).wfKeys = true) ∧
    (parse (Value.obj (ObjList.cons "toolUse" (Value.obj (ObjList.cons "toolUseId"
        (Value.str "t1") (.cons "name" (Value.str "search") (.cons "input"
          (Value.obj (.cons "q" (Value.str "x") .nil)) .nil)))) .nil)) initialState =
      .ok [ParsedEvent.currentToolUse (Value.str "search") (Value.str "t1")
          (if (Value.obj (ObjList.cons "q" (Value.str "x") .nil)).truthy = true then
            Value.obj (.cons "q" (Value.str "x") .nil) else Value.null) Value.null]
        { initialState with
            tool_use_mapping := vdictSet initialState.tool_use_mapping (Value.str "t1")
              (Value.str "search"),
            last_tool_input := kdictSet initialState.last_tool_input
              (ToolKey.plain (Value.str "t1"))
              (Value.obj (.cons "q" (Value.str "x") .nil)),
            displayed_tool_calls := initialState.displayed_tool_calls ++
              [Value.str "t1"] } ∧
      parse (Value.obj (ObjList.cons "toolUse" (Value.obj (ObjList.cons "toolUseId"
          (Value.str "t1") (.cons "name" (Value.str "search") (.cons "input"
            (Value.obj (.cons "q" (Value.str "x") .nil)) .nil)))) .nil))
        { initialState with
            tool_use_mapping := vdictSet initialState.tool_use_mapping (Value.str "t1")
              (Value.str "search"),
            last_tool_input := kdictSet initialState.last_tool_input
              (ToolKey.plain (Value.str "t1"))
              (Value.obj (.cons "q" (Value.str "x") .nil)),
            displayed_tool_calls := initialState.displayed_tool_calls ++
              [Value.str "t1"] } =
      .ok []
        { initialState with
            tool_use_mapping := vdictSet initialState.tool_use_mapping (Value.str "t1")
              (Value.str "search"),
            last_tool_input := kdictSet initialState.last_tool_input
              (ToolKey.plain (Value.str "t1"))
              (Value.obj (.cons "q" (Value.str "x") .nil)),
            displayed_tool_calls := initialState.displayed_tool_calls ++
              [Value.str "t1"] }) :=
  ⟨⟨by decide, by decide, by decide⟩,
    parse_tool_use_dedup_C2 "t1" "search" (.cons "q" (Value.str "x") .nil) initialState
      (by decide) (by decide) (by decide) (by decide) (by decide) (by decide)⟩

end Strands
